import Mathlib

/-!
# Shallow embedding of the reunion-app storage layer

This file embeds the contribution-ledger core of the `livecityfeeds/reunion`
repository: the `MemStorage` class (server/storage.ts) and the
`DatabaseStorage` class (server/database-storage.ts), restricted to the
entities and operations the verified claims are about (students, contributions,
budget items, expenses, the dashboard/budget summaries and bulk import).

Modelling conventions:
* JS `Map<number, T>` becomes a `List T` in insertion order, keyed by the
  record's `id` field; `Map.get` is `findByKey`, `Map.set` is `setByKey`
  (replace-in-place when the key exists, append otherwise, matching JS `Map`
  iteration-order semantics), `Map.delete` is `eraseByKey` (keys are unique in
  a JS map; uniqueness is carried as the well-formedness predicate `WF`).
* SQL tables are the same lists; `WHERE id = x LIMIT 1` is `findByKey`,
  `UPDATE ... WHERE id` is `setByKey`, `DELETE ... WHERE id` is `eraseByKey`,
  `SELECT COALESCE(SUM(col),0)` is a fold, `ORDER BY date DESC` is an
  insertion sort on the `date` column.
* JS numbers holding money amounts and ids are exact integers in the source's
  use, so amounts are `Int` and ids `Nat`; `x || 0` on an integer field is the
  identity (0 maps to 0) and is embedded as the field itself; `options?.x`
  truthiness tests on numeric options are `(o.getD 0) ≠ 0`.
* `Math.round(num/den * 100)` on nonnegative integer totals is embedded
  exactly as `ratRound`, the floor of `num/den + 1/2` (the two agree for every
  positive denominator, which is the only way the source reaches the division).
* Timestamp columns (`createdAt`) and presentation-only text columns
  (names, descriptions, emails, receipt images) that no claim reads are
  omitted from the records; the clock-dependent dashboard fields
  (`daysRemaining`, `progressPercentage`) are likewise not modelled.
-/

namespace Reunion

/-- The `paid_status` enum from shared/schema.ts. -/
inductive PaidStatus where
  | paid
  | pending
  | not_paid
  | not_applicable
deriving DecidableEq

/-- The `attending_status` enum from shared/schema.ts. -/
inductive AttendingStatus where
  | attending
  | not_attending
  | not_confirmed
deriving DecidableEq

/-- A row of the `students` table (shared/schema.ts `students`). -/
structure Student where
  id : Nat
  firstName : String
  lastName : String
  «section» : String
  gender : String
  mobile : String
  attendingStatus : AttendingStatus
  paidStatus : PaidStatus
  contributionAmount : Int
deriving DecidableEq

/-- The `InsertStudent` (the insert schema for `students`): all writable columns. -/
structure InsertStudent where
  firstName : String
  lastName : String
  «section» : String
  gender : String
  mobile : String
  attendingStatus : AttendingStatus
  paidStatus : PaidStatus
  contributionAmount : Int
deriving DecidableEq

/-- The `Partial<InsertStudent>`: each writable column optionally present. -/
structure StudentPatch where
  firstName : Option String := none
  lastName : Option String := none
  «section» : Option String := none
  gender : Option String := none
  mobile : Option String := none
  attendingStatus : Option AttendingStatus := none
  paidStatus : Option PaidStatus := none
  contributionAmount : Option Int := none
deriving DecidableEq

/-- JS object spread `{ ...student, ...patch }`: present patch fields
overwrite, the `id` is not part of `InsertStudent` and survives. -/
def applyStudentPatch (st : Student) (p : StudentPatch) : Student :=
  { id := st.id
    firstName := p.firstName.getD st.firstName
    lastName := p.lastName.getD st.lastName
    «section» := p.«section».getD st.«section»
    gender := p.gender.getD st.gender
    mobile := p.mobile.getD st.mobile
    attendingStatus := p.attendingStatus.getD st.attendingStatus
    paidStatus := p.paidStatus.getD st.paidStatus
    contributionAmount := p.contributionAmount.getD st.contributionAmount }

/-- The patch a full `InsertStudent` induces (bulk import passes the whole
record to `updateStudent`). -/
def patchOfInsert (r : InsertStudent) : StudentPatch :=
  { firstName := some r.firstName
    lastName := some r.lastName
    «section» := some r.«section»
    gender := some r.gender
    mobile := some r.mobile
    attendingStatus := some r.attendingStatus
    paidStatus := some r.paidStatus
    contributionAmount := some r.contributionAmount }

/-- A row of the `contributions` table. -/
structure Contribution where
  id : Nat
  studentId : Nat
  amount : Int
  date : Int
  recordedBy : Nat
deriving DecidableEq

/-- The `InsertContribution`. -/
structure InsertContribution where
  studentId : Nat
  amount : Int
  date : Int
  recordedBy : Nat
deriving DecidableEq

/-- The `Partial<InsertContribution>`. -/
structure ContributionPatch where
  studentId : Option Nat := none
  amount : Option Int := none
  date : Option Int := none
  recordedBy : Option Nat := none
deriving DecidableEq

/-- JS spread `{ ...contribution, ...patch }`. -/
def applyContributionPatch (c : Contribution) (p : ContributionPatch) : Contribution :=
  { id := c.id
    studentId := p.studentId.getD c.studentId
    amount := p.amount.getD c.amount
    date := p.date.getD c.date
    recordedBy := p.recordedBy.getD c.recordedBy }

/-- A row of the `budget_items` table (claim-relevant columns). -/
structure BudgetItem where
  id : Nat
  category : String
  estimatedAmount : Int
deriving DecidableEq

/-- A row of the `expenses` table (claim-relevant columns). -/
structure Expense where
  id : Nat
  category : String
  amount : Int
  date : Int
deriving DecidableEq

/-- The storage state: the four claim-relevant tables/maps plus the id
counters (`currentXId` in `MemStorage`, the serial sequences in Postgres). -/
structure StoreState where
  students : List Student
  contributions : List Contribution
  budgetItems : List BudgetItem
  expenses : List Expense
  currentStudentId : Nat
  currentContributionId : Nat
deriving DecidableEq

/-- The `Map.get k` / `SELECT ... WHERE key = k LIMIT 1`. -/
def findByKey (key : α → Nat) (l : List α) (k : Nat) : Option α :=
  l.find? (fun a => key a == k)

/-- The `Map.set (key a) a` / `UPDATE ... WHERE key`: replace the first entry
carrying the same key in place, else append. -/
def setByKey (key : α → Nat) : List α → α → List α
  | [], a => [a]
  | b :: l, a => if key b = key a then a :: l else b :: setByKey key l a

/-- The `Map.delete k` / `DELETE ... WHERE key = k` (keys are unique in a map). -/
def eraseByKey (key : α → Nat) (l : List α) (k : Nat) : List α :=
  l.filter (fun a => key a ≠ k)

/-- Well-formedness every reachable store satisfies: map keys are unique and
the serial counters lie strictly above every allocated id. -/
def WF (s : StoreState) : Prop :=
  (s.students.map (·.id)).Nodup ∧
  (s.contributions.map (·.id)).Nodup ∧
  (∀ st ∈ s.students, st.id < s.currentStudentId) ∧
  (∀ c ∈ s.contributions, c.id < s.currentContributionId)

instance (s : StoreState) : Decidable (WF s) := by
  unfold WF; infer_instance

/-- Options record of `getContributions`. -/
structure ContributionQuery where
  studentId : Option Nat := none
  limit : Option Nat := none
  offset : Option Nat := none
deriving DecidableEq

/-- The `Math.round (num / den)` as exact rational arithmetic:
`⌊num/den + 1/2⌋ = ⌊(2·num + den) / (2·den)⌋`, which coincides with the JS
float computation for every positive denominator arising from the code. -/
def ratRound (num den : Int) : Int :=
  Int.fdiv (2 * num + den) (2 * den)

/-- The hardcoded expense-category list both summary implementations map over. -/
def fixedCategories : List String :=
  ["venue", "food", "entertainment", "decoration", "transportation",
   "gifts", "technology", "marketing", "miscellaneous"]

/-- One entry of `categoryBreakdown`. -/
structure CategoryLine where
  category : String
  estimatedAmount : Int
  actualAmount : Int
deriving DecidableEq

/-- The `BudgetSummary` (shared/schema.ts `budgetSummarySchema`). -/
structure BudgetSummary where
  totalBudget : Int
  totalExpenses : Int
  totalContributions : Int
  balance : Int
  categoryBreakdown : List CategoryLine
deriving DecidableEq

/-- The claim-relevant fields of `DashboardSummary`
(clock-dependent fields and per-section stats are not modelled). -/
structure DashboardSummary where
  totalStudents : Nat
  attendingCount : Nat
  paidCount : Nat
  totalContributions : Int
  totalExpenses : Int
  budgetUtilization : Int
deriving DecidableEq

namespace MemStorage

/-- The `MemStorage.getStudent`. -/
def getStudent (s : StoreState) (id : Nat) : Option Student :=
  findByKey (·.id) s.students id

/-- The `MemStorage.getStudentByMobile`. -/
def getStudentByMobile (s : StoreState) (mobile : String) : Option Student :=
  s.students.find? (fun st => st.mobile == mobile)

/-- The `MemStorage.createStudent`. -/
def createStudent (s : StoreState) (r : InsertStudent) : StoreState × Student :=
  let id := s.currentStudentId
  let st : Student :=
    { id := id, firstName := r.firstName, lastName := r.lastName,
      «section» := r.«section», gender := r.gender, mobile := r.mobile,
      attendingStatus := r.attendingStatus, paidStatus := r.paidStatus,
      contributionAmount := r.contributionAmount }
  ({ s with students := setByKey (·.id) s.students st,
            currentStudentId := id + 1 }, st)

/-- The `MemStorage.updateStudent`. -/
def updateStudent (s : StoreState) (id : Nat) (p : StudentPatch) :
    StoreState × Option Student :=
  match findByKey (·.id) s.students id with
  | none => (s, none)
  | some st =>
      let st' := applyStudentPatch st p
      ({ s with students := setByKey (·.id) s.students st' }, some st')

/-- The `MemStorage.deleteStudent`: `studentMap.delete(id)`. -/
def deleteStudent (s : StoreState) (id : Nat) : StoreState × Bool :=
  ({ s with students := eraseByKey (·.id) s.students id },
   (findByKey (·.id) s.students id).isSome)

/-- The `MemStorage.getContribution`. -/
def getContribution (s : StoreState) (id : Nat) : Option Contribution :=
  findByKey (·.id) s.contributions id

/-- The `MemStorage.getContributions`: filter by truthy `studentId`, then slice
only when **both** `limit` and `offset` are present
(`slice(offset, offset + limit)`). -/
def getContributions (s : StoreState) (o : ContributionQuery) : List Contribution :=
  let cs := s.contributions
  let cs := if o.studentId.getD 0 ≠ 0
            then cs.filter (fun c => c.studentId == o.studentId.getD 0)
            else cs
  match o.limit, o.offset with
  | some l, some off => (cs.drop off).take l
  | _, _ => cs

/-- The `MemStorage.createContribution`: insert the row, then (if the student
exists) re-read their contributions, add the amount to the denormalized total
and promote `paidStatus` to `paid` on a literal first contribution. -/
def createContribution (s : StoreState) (ins : InsertContribution) :
    StoreState × Contribution :=
  let id := s.currentContributionId
  let c : Contribution :=
    { id := id, studentId := ins.studentId, amount := ins.amount,
      date := ins.date, recordedBy := ins.recordedBy }
  let s1 : StoreState :=
    { s with contributions := setByKey (·.id) s.contributions c,
             currentContributionId := id + 1 }
  match getStudent s1 ins.studentId with
  | none => (s1, c)
  | some st =>
      let existing := getContributions s1 { studentId := some st.id }
      let currentAmount := st.contributionAmount
      let patch : StudentPatch :=
        { contributionAmount := some (currentAmount + ins.amount),
          paidStatus :=
            if existing.length = 1 ∧ st.paidStatus ≠ PaidStatus.paid
            then some PaidStatus.paid else none }
      ((updateStudent s1 st.id patch).1, c)

/-- The `MemStorage.updateContribution`: missing id short-circuits; an amount
change adjusts the owner's total by the delta; then the patched row replaces
the old one. -/
def updateContribution (s : StoreState) (id : Nat) (p : ContributionPatch) :
    StoreState × Option Contribution :=
  match findByKey (·.id) s.contributions id with
  | none => (s, none)
  | some c =>
      let s1 :=
        match p.amount with
        | some na =>
            if na ≠ c.amount then
              match getStudent s c.studentId with
              | some st =>
                  (updateStudent s st.id
                    { contributionAmount :=
                        some (st.contributionAmount + (na - c.amount)) }).1
              | none => s
            else s
        | none => s
      let c' := applyContributionPatch c p
      ({ s1 with contributions := setByKey (·.id) s1.contributions c' }, some c')

/-- The `MemStorage.deleteContribution`: missing id returns `false`; otherwise the
owner's total is clamped down by the amount and the row removed. -/
def deleteContribution (s : StoreState) (id : Nat) : StoreState × Bool :=
  match findByKey (·.id) s.contributions id with
  | none => (s, false)
  | some c =>
      let s1 :=
        match getStudent s c.studentId with
        | some st =>
            (updateStudent s st.id
              { contributionAmount :=
                  some (max 0 (st.contributionAmount - c.amount)) }).1
        | none => s
      ({ s1 with contributions := eraseByKey (·.id) s1.contributions id }, true)

/-- The `MemStorage.getDashboardSummary` (claim-relevant fields):
`totalContributions` sums the students' denormalized field, and
`budgetUtilization` divides by `totalContributions || 1`. -/
def getDashboardSummary (s : StoreState) : DashboardSummary :=
  let allStudents := s.students
  let allExpenses := s.expenses
  let totalContributions :=
    allStudents.foldl (fun sum st => sum + st.contributionAmount) 0
  let totalExpenses :=
    allExpenses.foldl (fun sum e => sum + e.amount) 0
  { totalStudents := allStudents.length
    attendingCount :=
      (allStudents.filter (fun st => st.attendingStatus = AttendingStatus.attending)).length
    paidCount :=
      (allStudents.filter (fun st => st.paidStatus = PaidStatus.paid)).length
    totalContributions := totalContributions
    totalExpenses := totalExpenses
    budgetUtilization :=
      ratRound (100 * totalExpenses)
        (if totalContributions = 0 then 1 else totalContributions) }

/-- The `MemStorage.getBudgetSummary`. -/
def getBudgetSummary (s : StoreState) : BudgetSummary :=
  let allBudgetItems := s.budgetItems
  let allExpenses := s.expenses
  let allStudents := s.students
  let totalContributions :=
    allStudents.foldl (fun sum st => sum + st.contributionAmount) 0
  let totalBudget :=
    allBudgetItems.foldl (fun sum item => sum + item.estimatedAmount) 0
  let totalExpenses :=
    allExpenses.foldl (fun sum e => sum + e.amount) 0
  { totalBudget := totalBudget
    totalExpenses := totalExpenses
    totalContributions := totalContributions
    balance := totalContributions - totalExpenses
    categoryBreakdown := fixedCategories.map (fun category =>
      { category := category
        estimatedAmount :=
          (allBudgetItems.filter (fun item => item.category == category)).foldl
            (fun sum item => sum + item.estimatedAmount) 0
        actualAmount :=
          (allExpenses.filter (fun e => e.category == category)).foldl
            (fun sum e => sum + e.amount) 0 }) }

/-- The body of the `bulkImportStudents` loop: look the record up by mobile;
update the attendee found (pushing the result when the update returns one)
or create a fresh attendee. -/
def importStudentStep (acc : StoreState × List Student) (r : InsertStudent) :
    StoreState × List Student :=
  match getStudentByMobile acc.1 r.mobile with
  | some existing =>
      match updateStudent acc.1 existing.id (patchOfInsert r) with
      | (s1, some u) => (s1, acc.2 ++ [u])
      | (s1, none) => (s1, acc.2)
  | none =>
      let p := createStudent acc.1 r
      (p.1, acc.2 ++ [p.2])

/-- The `MemStorage.bulkImportStudents`: process the records in input order,
accumulating the created-or-updated attendees. -/
def bulkImportStudents (s : StoreState) (recs : List InsertStudent) :
    StoreState × List Student :=
  recs.foldl importStudentStep (s, [])

end MemStorage

namespace DatabaseStorage

/-- The `DatabaseStorage.getStudent` (the `fullName` decoration is presentation
only and not modelled). -/
def getStudent (s : StoreState) (id : Nat) : Option Student :=
  findByKey (·.id) s.students id

/-- The `DatabaseStorage.deleteStudent`: `DELETE FROM students WHERE id`; the
returned `!!result` is `true` regardless of whether a row matched. -/
def deleteStudent (s : StoreState) (id : Nat) : StoreState × Bool :=
  ({ s with students := eraseByKey (·.id) s.students id }, true)

/-- The `DatabaseStorage.getContribution`. -/
def getContribution (s : StoreState) (id : Nat) : Option Contribution :=
  findByKey (·.id) s.contributions id

/-- The `DatabaseStorage.getContributions`: filter by truthy `studentId`,
`ORDER BY date DESC`, then `LIMIT` only when truthy, with `OFFSET` only
alongside a truthy limit. -/
def getContributions (s : StoreState) (o : ContributionQuery) : List Contribution :=
  let cs := s.contributions
  let cs := if o.studentId.getD 0 ≠ 0
            then cs.filter (fun c => c.studentId == o.studentId.getD 0)
            else cs
  let sorted := List.insertionSort (fun a b => b.date ≤ a.date) cs
  match o.limit with
  | some l =>
      if l ≠ 0 then
        match o.offset with
        | some off => (sorted.drop off).take l
        | none => sorted.take l
      else sorted
  | none => sorted

/-- The `DatabaseStorage.updateStudent` (`UPDATE students SET ... WHERE id`). -/
def updateStudent (s : StoreState) (id : Nat) (p : StudentPatch) :
    StoreState × Option Student :=
  match findByKey (·.id) s.students id with
  | none => (s, none)
  | some st =>
      let st' := applyStudentPatch st p
      ({ s with students := setByKey (·.id) s.students st' }, some st')

/-- The `DatabaseStorage.createContribution`: same shape as the in-memory one
(insert row, then best-effort attendee update). -/
def createContribution (s : StoreState) (ins : InsertContribution) :
    StoreState × Contribution :=
  let id := s.currentContributionId
  let c : Contribution :=
    { id := id, studentId := ins.studentId, amount := ins.amount,
      date := ins.date, recordedBy := ins.recordedBy }
  let s1 : StoreState :=
    { s with contributions := setByKey (·.id) s.contributions c,
             currentContributionId := id + 1 }
  match getStudent s1 ins.studentId with
  | none => (s1, c)
  | some st =>
      let existing := getContributions s1 { studentId := some st.id }
      let currentAmount := st.contributionAmount
      let patch : StudentPatch :=
        { contributionAmount := some (currentAmount + ins.amount),
          paidStatus :=
            if existing.length = 1 ∧ st.paidStatus ≠ PaidStatus.paid
            then some PaidStatus.paid else none }
      ((updateStudent s1 st.id patch).1, c)

/-- The `DatabaseStorage.updateContribution`. -/
def updateContribution (s : StoreState) (id : Nat) (p : ContributionPatch) :
    StoreState × Option Contribution :=
  match findByKey (·.id) s.contributions id with
  | none => (s, none)
  | some c =>
      let s1 :=
        match p.amount with
        | some na =>
            if na ≠ c.amount then
              match getStudent s c.studentId with
              | some st =>
                  (updateStudent s st.id
                    { contributionAmount :=
                        some (st.contributionAmount + (na - c.amount)) }).1
              | none => s
            else s
        | none => s
      let c' := applyContributionPatch c p
      ({ s1 with contributions := setByKey (·.id) s1.contributions c' }, some c')

/-- The `DatabaseStorage.deleteContribution`: the attendee clamp only runs when
`student.contributionAmount` is truthy (nonzero). -/
def deleteContribution (s : StoreState) (id : Nat) : StoreState × Bool :=
  match findByKey (·.id) s.contributions id with
  | none => (s, false)
  | some c =>
      let s1 :=
        match getStudent s c.studentId with
        | some st =>
            if st.contributionAmount ≠ 0 then
              (updateStudent s st.id
                { contributionAmount :=
                    some (max 0 (st.contributionAmount - c.amount)) }).1
            else s
        | none => s
      ({ s1 with contributions := eraseByKey (·.id) s1.contributions id }, true)

/-- The `DatabaseStorage.getDashboardSummary` (claim-relevant fields):
`totalContributions` is `SUM(contributions.amount)` straight off the ledger,
and `budgetUtilization` is guarded by `totalBudget > 0`. -/
def getDashboardSummary (s : StoreState) : DashboardSummary :=
  let allStudents := s.students
  let totalContributions := (s.contributions.map (·.amount)).sum
  let totalExpenses := (s.expenses.map (·.amount)).sum
  let totalBudget := (s.budgetItems.map (·.estimatedAmount)).sum
  { totalStudents := allStudents.length
    attendingCount :=
      (allStudents.filter (fun st => st.attendingStatus = AttendingStatus.attending)).length
    paidCount :=
      (allStudents.filter (fun st => st.paidStatus = PaidStatus.paid)).length
    totalContributions := totalContributions
    totalExpenses := totalExpenses
    budgetUtilization :=
      if 0 < totalBudget then ratRound (100 * totalExpenses) totalBudget else 0 }

/-- The `expensesByCategory` record built by `reduce` in
`DatabaseStorage.getBudgetSummary`, as a total function with default 0. -/
def expensesByCategory (es : List Expense) : String → Int :=
  es.foldl (fun acc e => fun k => if k = e.category then acc k + e.amount else acc k)
    (fun _ => 0)

/-- The `DatabaseStorage.getBudgetSummary`: totals come from SQL sums over the
ledger/expense tables, the per-category actuals from the grouped record. -/
def getBudgetSummary (s : StoreState) : BudgetSummary :=
  let allBudgetItems := s.budgetItems
  let allExpenses := s.expenses
  let totalBudget :=
    allBudgetItems.foldl (fun sum item => sum + item.estimatedAmount) 0
  let totalExpenses := (s.expenses.map (·.amount)).sum
  let totalContributions := (s.contributions.map (·.amount)).sum
  { totalBudget := totalBudget
    totalExpenses := totalExpenses
    totalContributions := totalContributions
    balance := totalContributions - totalExpenses
    categoryBreakdown := fixedCategories.map (fun category =>
      { category := category
        estimatedAmount :=
          (allBudgetItems.filter (fun item => item.category == category)).foldl
            (fun sum item => sum + item.estimatedAmount) 0
        actualAmount := expensesByCategory allExpenses category }) }

end DatabaseStorage

/-! ## Generic lemmas about the keyed-list model -/

theorem findByKey_eq_none_iff {key : α → Nat} {l : List α} {k : Nat} :
    findByKey key l k = none ↔ ∀ a ∈ l, key a ≠ k := by
  simp [findByKey, List.find?_eq_none]

theorem mem_of_findByKey {key : α → Nat} {l : List α} {k : Nat} {c : α}
    (h : findByKey key l k = some c) : c ∈ l ∧ key c = k := by
  refine ⟨List.mem_of_find?_eq_some h, ?_⟩
  have := List.find?_some h
  simpa using this

/-- The `Map.set` with a key absent from the map appends. -/
theorem setByKey_of_forall_ne {key : α → Nat} {l : List α} {a : α}
    (h : ∀ b ∈ l, key b ≠ key a) : setByKey key l a = l ++ [a] := by
  induction l with
  | nil => rfl
  | cons b t ih =>
      have hb : key b ≠ key a := h b (List.mem_cons_self b t)
      simp only [setByKey, if_neg hb, List.cons_append]
      exact congrArg (b :: ·) (ih fun x hx => h x (List.mem_cons_of_mem b hx))

/-- Decomposing a successful lookup: the list splits around the first entry
with key `k`, and `Map.set` with any record of key `k` replaces exactly it. -/
theorem findByKey_decomp {key : α → Nat} {l : List α} {k : Nat} {c : α}
    (h : findByKey key l k = some c) :
    ∃ l1 l2, l = l1 ++ c :: l2 ∧ (∀ b ∈ l1, key b ≠ k) ∧
      (∀ a, key a = k → setByKey key l a = l1 ++ a :: l2) := by
  induction l with
  | nil => simp [findByKey] at h
  | cons b t ih =>
      by_cases hb : key b = k
      · have hc : b = c := by
          unfold findByKey at h
          rw [List.find?_cons_of_pos _ (by simpa using hb)] at h
          exact Option.some.inj h
        subst hc
        refine ⟨[], t, rfl, by simp, fun a ha => ?_⟩
        simp [setByKey, hb, ha]
      · have ht : findByKey key t k = some c := by
          unfold findByKey at h ⊢
          rwa [List.find?_cons_of_neg _ (by simpa using hb)] at h
        obtain ⟨l1, l2, hsplit, hl1, hset⟩ := ih ht
        refine ⟨b :: l1, l2, by rw [hsplit]; rfl,
          fun x hx => ?_, fun a ha => ?_⟩
        · rcases List.mem_cons.mp hx with rfl | hx
          · exact hb
          · exact hl1 x hx
        · have : key b ≠ key a := by rw [ha]; exact hb
          simp only [setByKey, if_neg this, List.cons_append]
          exact congrArg (b :: ·) (hset a ha)

/-- Looking up key `k` in a list whose prefix avoids `k` finds the marked
entry. -/
theorem findByKey_middle {key : α → Nat} {l1 l2 : List α} {k : Nat} {c : α}
    (hl1 : ∀ b ∈ l1, key b ≠ k) (hc : key c = k) :
    findByKey key (l1 ++ c :: l2) k = some c := by
  induction l1 with
  | nil =>
      unfold findByKey
      exact List.find?_cons_of_pos _ (by simpa using hc)
  | cons b t ih =>
      have hb : key b ≠ k := hl1 b (List.mem_cons_self b t)
      unfold findByKey at ih ⊢
      rw [List.cons_append, List.find?_cons_of_neg _ (by simpa using hb)]
      exact ih fun x hx => hl1 x (List.mem_cons_of_mem b hx)

/-- The `Map.delete` on a list split around the only entry with key `k` drops
exactly that entry. -/
theorem eraseByKey_middle {key : α → Nat} {l1 l2 : List α} {k : Nat} {c : α}
    (hl1 : ∀ b ∈ l1, key b ≠ k) (hl2 : ∀ b ∈ l2, key b ≠ k) (hc : key c = k) :
    eraseByKey key (l1 ++ c :: l2) k = l1 ++ l2 := by
  unfold eraseByKey
  rw [List.filter_append, List.filter_cons]
  have : ¬ (key c ≠ k) := by simp [hc]
  rw [if_neg (by simpa using this)]
  rw [List.filter_eq_self.mpr (by intro b hb; simpa using hl1 b hb),
      List.filter_eq_self.mpr (by intro b hb; simpa using hl2 b hb)]

/-- In a list with pairwise-distinct keys, everything after the found entry
avoids its key. -/
theorem nodup_suffix_ne {f : α → Nat} {l1 l2 : List α} {k : Nat} {c : α}
    (hnd : ((l1 ++ c :: l2).map f).Nodup) (hc : f c = k) :
    ∀ b ∈ l2, f b ≠ k := by
  intro b hb
  rw [List.map_append, List.map_cons] at hnd
  have h2 := (List.nodup_append.mp hnd).2.1
  have := (List.nodup_cons.mp h2).1
  intro hbk
  have hcb : f c = f b := by rw [hc, hbk]
  exact this (by rw [hcb]; exact List.mem_map_of_mem f hb)

/-- JS `reduce((s, x) => s + f x, 0)` is the sum of the mapped list. -/
theorem foldl_add_eq_sum (f : α → Int) (l : List α) (i : Int) :
    l.foldl (fun s x => s + f x) i = i + (l.map f).sum := by
  induction l generalizing i with
  | nil => simp
  | cons x t ih => simp [ih, add_assoc]

/-- With pairwise-distinct keys, at most one entry carries key `k`. -/
theorem length_filter_key_le_one {key : α → Nat} {l : List α} {k : Nat}
    (hnd : (l.map key).Nodup) :
    (l.filter (fun a => key a == k)).length ≤ 1 := by
  induction l with
  | nil => simp
  | cons b t ih =>
      rw [List.map_cons, List.nodup_cons] at hnd
      rw [List.filter_cons]
      by_cases hb : key b = k
      · rw [if_pos (by simpa using hb)]
        have : t.filter (fun a => key a == k) = [] := by
          apply List.filter_eq_nil_iff.mpr
          intro a ha
          simp only [beq_iff_eq]
          intro hak
          have hba : key b = key a := by rw [hb, hak]
          exact hnd.1 (by rw [hba]; exact List.mem_map_of_mem key ha)
        simp [this]
      · rw [if_neg (by simpa using hb)]
        exact ih hnd.2

/-! ## The ledger sum and the denormalized-total invariant -/

/-- The spec-side ledger total of one attendee:
`sum(contribution.amount for contribution in ledger where studentId = sid)`. -/
def ledgerSum (cs : List Contribution) (sid : Nat) : Int :=
  ((cs.filter (fun c => c.studentId == sid)).map (·.amount)).sum

theorem ledgerSum_append (xs ys : List Contribution) (sid : Nat) :
    ledgerSum (xs ++ ys) sid = ledgerSum xs sid + ledgerSum ys sid := by
  simp [ledgerSum, List.filter_append]

theorem ledgerSum_cons (c : Contribution) (cs : List Contribution) (sid : Nat) :
    ledgerSum (c :: cs) sid =
      (if c.studentId = sid then c.amount else 0) + ledgerSum cs sid := by
  by_cases h : c.studentId = sid
  · simp [ledgerSum, List.filter_cons, h]
  · simp [ledgerSum, List.filter_cons, h]

theorem ledgerSum_nonneg {cs : List Contribution} {sid : Nat}
    (h : ∀ c ∈ cs, 0 ≤ c.amount) : 0 ≤ ledgerSum cs sid := by
  apply List.sum_nonneg
  intro x hx
  obtain ⟨c, hc, rfl⟩ := List.mem_map.mp hx
  exact h c (List.mem_of_mem_filter hc)

/-- The documented invariant between the ledger and the denormalized field:
every attendee's `contributionAmount` equals their ledger sum. -/
def ContribInvariant (s : StoreState) : Prop :=
  ∀ st ∈ s.students, st.contributionAmount = ledgerSum s.contributions st.id

instance (s : StoreState) : Decidable (ContribInvariant s) := by
  unfold ContribInvariant; infer_instance

theorem applyStudentPatch_id (st : Student) (p : StudentPatch) :
    (applyStudentPatch st p).id = st.id := rfl

theorem applyStudentPatch_contributionAmount (st : Student) (p : StudentPatch)
    (v : Int) (h : p.contributionAmount = some v) :
    (applyStudentPatch st p).contributionAmount = v := by
  simp [applyStudentPatch, h]

/-- Successful `updateStudent`, written out. -/
theorem updateStudent_eq_some (s : StoreState) (id : Nat) (p : StudentPatch)
    (st : Student) (h : findByKey (·.id) s.students id = some st) :
    MemStorage.updateStudent s id p =
      ({ s with students := setByKey (·.id) s.students (applyStudentPatch st p) },
       some (applyStudentPatch st p)) := by
  simp [MemStorage.updateStudent, h]

/-- The `createContribution` preserves the ledger/denormalized-total invariant. -/
theorem invariant_createContribution (s : StoreState) (ins : InsertContribution)
    (hWF : WF s) (hInv : ContribInvariant s) :
    ContribInvariant (MemStorage.createContribution s ins).1 := by
  obtain ⟨hndS, hndC, hboundS, hboundC⟩ := hWF
  have hfresh : ∀ b ∈ s.contributions,
      b.id ≠ s.currentContributionId :=
    fun b hb => Nat.ne_of_lt (hboundC b hb)
  unfold ContribInvariant
  simp only [MemStorage.createContribution]
  rw [setByKey_of_forall_ne hfresh]
  set c : Contribution :=
    { id := s.currentContributionId, studentId := ins.studentId,
      amount := ins.amount, date := ins.date,
      recordedBy := ins.recordedBy } with hc
  set s1 : StoreState :=
    { s with contributions := s.contributions ++ [c],
             currentContributionId := s.currentContributionId + 1 } with hs1
  have hledger : ∀ sid : Nat, ledgerSum s1.contributions sid =
      ledgerSum s.contributions sid +
        (if ins.studentId = sid then ins.amount else 0) := by
    intro sid
    rw [hs1]
    simp only [ledgerSum_append]
    rw [ledgerSum_cons]
    simp [ledgerSum]
  split
  next hst =>
    -- missing attendee: the row dangles, nobody's sum mentions it
    intro x hx
    have hx' : x ∈ s.students := hx
    have hne : x.id ≠ ins.studentId := by
      have := findByKey_eq_none_iff.mp hst x hx'
      simpa using this
    show x.contributionAmount = ledgerSum s1.contributions x.id
    rw [hledger x.id, if_neg (fun h => hne h.symm), add_zero]
    exact hInv x hx'
  next st hst =>
    obtain ⟨hmem, hid⟩ := mem_of_findByKey hst
    have hmem' : st ∈ s.students := hmem
    have hfind1 : findByKey (·.id) s1.students st.id = some st := by
      have heq : MemStorage.getStudent s1 ins.studentId =
          findByKey (·.id) s1.students ins.studentId := rfl
      rw [heq] at hst
      rwa [hid]
    obtain ⟨l1, l2, hsplit, hl1, hset⟩ := findByKey_decomp hfind1
    have hnd1 : (s1.students.map (·.id)).Nodup := hndS
    have hl2 : ∀ b ∈ l2, b.id ≠ st.id := by
      have := nodup_suffix_ne (f := fun a : Student => a.id) (k := st.id)
        (by rw [← hsplit]; exact hnd1) rfl
      simpa using this
    rw [updateStudent_eq_some s1 st.id _ st hfind1]
    intro x hx
    simp only at hx
    rw [hset _ (applyStudentPatch_id st _)] at hx
    show x.contributionAmount = ledgerSum s1.contributions x.id
    rcases List.mem_append.mp hx with hx1 | hx2
    · -- an untouched attendee left of the owner
      have hxid : x.id ≠ st.id := hl1 x hx1
      have hxmem : x ∈ s.students := by
        have : x ∈ s1.students := by
          rw [hsplit]; exact List.mem_append_left _ hx1
        exact this
      rw [hledger x.id, if_neg (fun h => hxid ((hid.trans h).symm)), add_zero]
      exact hInv x hxmem
    · rcases List.mem_cons.mp hx2 with rfl | hx3
      · -- the updated owner
        rw [applyStudentPatch_id,
            applyStudentPatch_contributionAmount _ _ _ rfl,
            hledger st.id, if_pos hid.symm, hInv st hmem']
      · -- an untouched attendee right of the owner
        have hxid : x.id ≠ st.id := hl2 x hx3
        have hxmem : x ∈ s.students := by
          have : x ∈ s1.students := by
            rw [hsplit]
            exact List.mem_append_right _ (List.mem_cons_of_mem st hx3)
          exact this
        rw [hledger x.id, if_neg (fun h => hxid ((hid.trans h).symm)), add_zero]
        exact hInv x hxmem

theorem applyContributionPatch_id (c : Contribution) (p : ContributionPatch) :
    (applyContributionPatch c p).id = c.id := rfl

/-- Replacing one ledger row by another with the same owner shifts that
owner's ledger sum by the amount difference and nobody else's. -/
theorem ledgerSum_replace (m1 m2 : List Contribution) (c c' : Contribution)
    (hsid : c'.studentId = c.studentId) (sid : Nat) :
    ledgerSum (m1 ++ c' :: m2) sid = ledgerSum (m1 ++ c :: m2) sid +
      (if c.studentId = sid then c'.amount - c.amount else 0) := by
  rw [ledgerSum_append, ledgerSum_append, ledgerSum_cons, ledgerSum_cons, hsid]
  by_cases h : c.studentId = sid
  · rw [if_pos h, if_pos h, if_pos h]; ring
  · rw [if_neg h, if_neg h, if_neg h]; ring

/-- The `updateContribution` preserves the invariant as long as the patch does not
move the row to a different attendee. -/
theorem invariant_updateContribution (s : StoreState) (id : Nat)
    (p : ContributionPatch) (hWF : WF s) (hInv : ContribInvariant s)
    (hsid : ∀ c, MemStorage.getContribution s id = some c →
      p.studentId = none ∨ p.studentId = some c.studentId) :
    ContribInvariant (MemStorage.updateContribution s id p).1 := by
  obtain ⟨hndS, hndC, hboundS, hboundC⟩ := hWF
  unfold ContribInvariant
  simp only [MemStorage.updateContribution]
  split
  next hfc => exact hInv
  next c hfc =>
    have hcsid : (applyContributionPatch c p).studentId = c.studentId := by
      rcases hsid c hfc with h | h <;> simp [applyContributionPatch, h]
    obtain ⟨hcmem, hcid⟩ := mem_of_findByKey hfc
    obtain ⟨m1, m2, hcsplit, hm1, hcset⟩ := findByKey_decomp hfc
    have hdelta : ∀ cs' : List Contribution,
        cs' = m1 ++ applyContributionPatch c p :: m2 →
        ∀ sid : Nat, ledgerSum cs' sid = ledgerSum s.contributions sid +
          (if c.studentId = sid
           then (applyContributionPatch c p).amount - c.amount else 0) := by
    -- delta of the row replacement, against the original ledger
      intro cs' hcs' sid
      rw [hcs', hcsplit]
      exact ledgerSum_replace m1 m2 c _ hcsid sid
    split
    next na hpa =>
      -- an amount is supplied
      split
      next hne =>
        -- and it differs from the stored amount
        have hamt : (applyContributionPatch c p).amount = na := by
          simp [applyContributionPatch, hpa]
        split
        next st hgs =>
          -- the owning attendee exists: their total absorbs the delta
          obtain ⟨hmem, hid⟩ := mem_of_findByKey hgs
          obtain ⟨l1, l2, hssplit, hl1, hsset⟩ := findByKey_decomp hgs
          have hl2 : ∀ b ∈ l2, b.id ≠ c.studentId := by
            have := nodup_suffix_ne (f := fun a : Student => a.id)
              (k := c.studentId) (by rw [← hssplit]; exact hndS) hid
            simpa using this
          have hgs' : findByKey (·.id) s.students st.id = some st := by
            rw [hid]; exact hgs
          rw [updateStudent_eq_some s st.id _ st hgs']
          intro x hx
          simp only at hx
          rw [hsset _ ((applyStudentPatch_id st _).trans hid)] at hx
          show x.contributionAmount = ledgerSum (setByKey _ s.contributions _) x.id
          rw [hcset _ ((applyContributionPatch_id c p).trans hcid),
              hdelta _ rfl x.id]
          rcases List.mem_append.mp hx with hx1 | hx2
          · have hxid : x.id ≠ c.studentId := hl1 x hx1
            have hxmem : x ∈ s.students := by
              rw [hssplit]; exact List.mem_append_left _ hx1
            rw [if_neg (fun h => hxid h.symm), add_zero]
            exact hInv x hxmem
          · rcases List.mem_cons.mp hx2 with rfl | hx3
            · rw [applyStudentPatch_contributionAmount _ _ _ rfl,
                  hInv st hmem, applyStudentPatch_id, hid, if_pos rfl, hamt]
            · have hxid : x.id ≠ c.studentId := hl2 x hx3
              have hxmem : x ∈ s.students := by
                rw [hssplit]
                exact List.mem_append_right _ (List.mem_cons_of_mem st hx3)
              rw [if_neg (fun h => hxid h.symm), add_zero]
              exact hInv x hxmem
        next hgs =>
          -- dangling row: nobody's sum mentions it, before or after
          intro x hx
          have hx' : x ∈ s.students := hx
          have hxid : x.id ≠ c.studentId := by
            have := findByKey_eq_none_iff.mp hgs x hx'
            simpa using this
          show x.contributionAmount = ledgerSum (setByKey _ s.contributions _) x.id
          rw [hcset _ ((applyContributionPatch_id c p).trans hcid), hdelta _ rfl x.id,
              if_neg (fun h => hxid h.symm), add_zero]
          exact hInv x hx'
      next hne =>
        -- amount unchanged: the replacement is sum-neutral
        have hna : na = c.amount := by
          by_contra h; exact hne h
        have hamt : (applyContributionPatch c p).amount = c.amount := by
          simp [applyContributionPatch, hpa, hna]
        intro x hx
        have hx' : x ∈ s.students := hx
        show x.contributionAmount = ledgerSum (setByKey _ s.contributions _) x.id
        rw [hcset _ ((applyContributionPatch_id c p).trans hcid), hdelta _ rfl x.id, hamt]
        simp only [sub_self, ite_self, add_zero]
        exact hInv x hx'
    next hpa =>
      -- no amount in the patch
      have hamt : (applyContributionPatch c p).amount = c.amount := by
        simp [applyContributionPatch, hpa]
      intro x hx
      have hx' : x ∈ s.students := hx
      show x.contributionAmount = ledgerSum (setByKey _ s.contributions _) x.id
      rw [hcset _ ((applyContributionPatch_id c p).trans hcid), hdelta _ rfl x.id, hamt]
      simp only [sub_self, ite_self, add_zero]
      exact hInv x hx'

/-- The `deleteContribution` preserves the invariant on ledgers with nonnegative
amounts (the `Math.max(0, ...)` clamp is then exact). -/
theorem invariant_deleteContribution (s : StoreState) (id : Nat)
    (hWF : WF s) (hnn : ∀ c ∈ s.contributions, 0 ≤ c.amount)
    (hInv : ContribInvariant s) :
    ContribInvariant (MemStorage.deleteContribution s id).1 := by
  obtain ⟨hndS, hndC, hboundS, hboundC⟩ := hWF
  unfold ContribInvariant
  simp only [MemStorage.deleteContribution]
  split
  next hfc => exact hInv
  next c hfc =>
    obtain ⟨hcmem, hcid⟩ := mem_of_findByKey hfc
    obtain ⟨m1, m2, hcsplit, hm1, hcset⟩ := findByKey_decomp hfc
    have hm2 : ∀ b ∈ m2, b.id ≠ id := by
      have := nodup_suffix_ne (f := fun a : Contribution => a.id)
        (k := id) (by rw [← hcsplit]; exact hndC) hcid
      simpa using this
    have herase : eraseByKey (fun a : Contribution => a.id) s.contributions id
        = m1 ++ m2 := by
      rw [hcsplit]
      exact eraseByKey_middle hm1 hm2 hcid
    have hledger : ∀ sid : Nat, ledgerSum s.contributions sid =
        ledgerSum (m1 ++ m2) sid +
          (if c.studentId = sid then c.amount else 0) := by
      intro sid
      rw [hcsplit, ledgerSum_append, ledgerSum_append, ledgerSum_cons]
      ring
    have hrest : ∀ b ∈ m1 ++ m2, 0 ≤ b.amount := by
      intro b hb
      apply hnn
      rw [hcsplit]
      rcases List.mem_append.mp hb with h | h
      · exact List.mem_append_left _ h
      · exact List.mem_append_right _ (List.mem_cons_of_mem c h)
    split
    next st hgs =>
      obtain ⟨hmem, hid⟩ := mem_of_findByKey hgs
      obtain ⟨l1, l2, hssplit, hl1, hsset⟩ := findByKey_decomp hgs
      have hl2 : ∀ b ∈ l2, b.id ≠ c.studentId := by
        have := nodup_suffix_ne (f := fun a : Student => a.id)
          (k := c.studentId) (by rw [← hssplit]; exact hndS) hid
        simpa using this
      have hgs' : findByKey (·.id) s.students st.id = some st := by
        rw [hid]; exact hgs
      rw [updateStudent_eq_some s st.id _ st hgs']
      intro x hx
      simp only at hx
      rw [hsset _ ((applyStudentPatch_id st _).trans hid)] at hx
      show x.contributionAmount = ledgerSum (eraseByKey _ _ id) x.id
      rw [herase]
      rcases List.mem_append.mp hx with hx1 | hx2
      · have hxid : x.id ≠ c.studentId := hl1 x hx1
        have hxmem : x ∈ s.students := by
          rw [hssplit]; exact List.mem_append_left _ hx1
        have := hInv x hxmem
        rw [hledger x.id, if_neg (fun h => hxid h.symm), add_zero] at this
        exact this
      · rcases List.mem_cons.mp hx2 with rfl | hx3
        · rw [applyStudentPatch_contributionAmount _ _ _ rfl,
              hInv st hmem, applyStudentPatch_id, hid,
              hledger c.studentId, if_pos rfl]
          have h0 : 0 ≤ ledgerSum (m1 ++ m2) c.studentId :=
            ledgerSum_nonneg hrest
          omega
        · have hxid : x.id ≠ c.studentId := hl2 x hx3
          have hxmem : x ∈ s.students := by
            rw [hssplit]
            exact List.mem_append_right _ (List.mem_cons_of_mem st hx3)
          have := hInv x hxmem
          rw [hledger x.id, if_neg (fun h => hxid h.symm), add_zero] at this
          exact this
    next hgs =>
      intro x hx
      have hx' : x ∈ s.students := hx
      have hxid : x.id ≠ c.studentId := by
        have := findByKey_eq_none_iff.mp hgs x hx'
        simpa using this
      show x.contributionAmount = ledgerSum (eraseByKey _ _ id) x.id
      rw [herase]
      have := hInv x hx'
      rw [hledger x.id, if_neg (fun h => hxid h.symm), add_zero] at this
      exact this

theorem applyStudentPatch_paidStatus_some (st : Student) (p : StudentPatch)
    (v : PaidStatus) (h : p.paidStatus = some v) :
    (applyStudentPatch st p).paidStatus = v := by
  simp [applyStudentPatch, h]

theorem applyStudentPatch_paidStatus_none (st : Student) (p : StudentPatch)
    (h : p.paidStatus = none) :
    (applyStudentPatch st p).paidStatus = st.paidStatus := by
  simp [applyStudentPatch, h]

/-- A student filter with a nonzero (truthy) id and no pagination is a plain
filter of the ledger. -/
theorem getContributions_by_student (s : StoreState) (sid : Nat) (h : sid ≠ 0) :
    MemStorage.getContributions s
      { studentId := some sid, limit := none, offset := none } =
      s.contributions.filter (fun c => c.studentId == sid) := by
  simp [MemStorage.getContributions, h]

/-- The `createContribution` when the attendee exists, written out. -/
theorem createContribution_eq_found (s : StoreState) (ins : InsertContribution)
    (st : Student)
    (hfresh : ∀ b ∈ s.contributions, b.id ≠ s.currentContributionId)
    (hfind : findByKey (fun a : Student => a.id) s.students ins.studentId = some st) :
    MemStorage.createContribution s ins =
      ({ s with
          students := setByKey (fun a : Student => a.id) s.students
            (applyStudentPatch st
              { contributionAmount := some (st.contributionAmount + ins.amount),
                paidStatus :=
                  if (MemStorage.getContributions
                        { s with
                          contributions := s.contributions ++
                            [{ id := s.currentContributionId,
                               studentId := ins.studentId, amount := ins.amount,
                               date := ins.date, recordedBy := ins.recordedBy }],
                          currentContributionId := s.currentContributionId + 1 }
                        { studentId := some st.id, limit := none,
                          offset := none }).length = 1 ∧
                     st.paidStatus ≠ PaidStatus.paid
                  then some PaidStatus.paid else none }),
          contributions := s.contributions ++
            [{ id := s.currentContributionId, studentId := ins.studentId,
               amount := ins.amount, date := ins.date,
               recordedBy := ins.recordedBy }],
          currentContributionId := s.currentContributionId + 1 },
       { id := s.currentContributionId, studentId := ins.studentId,
         amount := ins.amount, date := ins.date,
         recordedBy := ins.recordedBy }) := by
  obtain ⟨hmem, hid⟩ := mem_of_findByKey hfind
  simp only [MemStorage.createContribution]
  have hfresh' : ∀ b ∈ s.contributions, (fun a : Contribution => a.id) b ≠
      (fun a : Contribution => a.id)
        { id := s.currentContributionId, studentId := ins.studentId,
          amount := ins.amount, date := ins.date,
          recordedBy := ins.recordedBy } := hfresh
  rw [setByKey_of_forall_ne hfresh']
  have hgs1 : MemStorage.getStudent
      { s with
        contributions := s.contributions ++
          [{ id := s.currentContributionId, studentId := ins.studentId,
             amount := ins.amount, date := ins.date,
             recordedBy := ins.recordedBy }],
        currentContributionId := s.currentContributionId + 1 }
      ins.studentId = some st := hfind
  rw [hgs1]
  dsimp only
  have hfind' : findByKey (fun a : Student => a.id)
      ({ s with
        contributions := s.contributions ++
          [{ id := s.currentContributionId, studentId := ins.studentId,
             amount := ins.amount, date := ins.date,
             recordedBy := ins.recordedBy }],
        currentContributionId := s.currentContributionId + 1 } : StoreState).students
      st.id = some st := by
    show findByKey (fun a : Student => a.id) s.students st.id = some st
    rw [hid]; exact hfind
  rw [updateStudent_eq_some _ st.id _ st hfind']

/-- The `createContribution` when the attendee is missing: the row is inserted
and returned anyway; only the attendee update is skipped. -/
theorem createContribution_eq_missing (s : StoreState) (ins : InsertContribution)
    (hfresh : ∀ b ∈ s.contributions, b.id ≠ s.currentContributionId)
    (hmiss : findByKey (fun a : Student => a.id) s.students ins.studentId = none) :
    MemStorage.createContribution s ins =
      ({ s with
          contributions := s.contributions ++
            [{ id := s.currentContributionId, studentId := ins.studentId,
               amount := ins.amount, date := ins.date,
               recordedBy := ins.recordedBy }],
          currentContributionId := s.currentContributionId + 1 },
       { id := s.currentContributionId, studentId := ins.studentId,
         amount := ins.amount, date := ins.date,
         recordedBy := ins.recordedBy }) := by
  simp only [MemStorage.createContribution]
  have hfresh' : ∀ b ∈ s.contributions, (fun a : Contribution => a.id) b ≠
      (fun a : Contribution => a.id)
        { id := s.currentContributionId, studentId := ins.studentId,
          amount := ins.amount, date := ins.date,
          recordedBy := ins.recordedBy } := hfresh
  rw [setByKey_of_forall_ne hfresh']
  have hgs1 : MemStorage.getStudent
      { s with
        contributions := s.contributions ++
          [{ id := s.currentContributionId, studentId := ins.studentId,
             amount := ins.amount, date := ins.date,
             recordedBy := ins.recordedBy }],
        currentContributionId := s.currentContributionId + 1 }
      ins.studentId = none := hmiss
  rw [hgs1]

/-- What `createContribution` does to the attendee it credits: the stored
total grows by the amount, and `paidStatus` is promoted exactly when the
post-insert count of their rows (prior count + 1) is one and the status is
not already `paid`. -/
theorem paidStatus_after_create (s : StoreState) (ins : InsertContribution)
    (st : Student)
    (hfresh : ∀ b ∈ s.contributions, b.id ≠ s.currentContributionId)
    (hfind : findByKey (fun x : Student => x.id) s.students ins.studentId = some st)
    (hid0 : ins.studentId ≠ 0) :
    MemStorage.getStudent (MemStorage.createContribution s ins).1 ins.studentId =
      some (applyStudentPatch st
        { contributionAmount := some (st.contributionAmount + ins.amount),
          paidStatus :=
            if (s.contributions.filter
                  (fun c => c.studentId == ins.studentId)).length + 1 = 1 ∧
               st.paidStatus ≠ PaidStatus.paid
            then some PaidStatus.paid else none }) ∧
    (MemStorage.createContribution s ins).1.contributions =
      s.contributions ++
        [{ id := s.currentContributionId, studentId := ins.studentId,
           amount := ins.amount, date := ins.date, recordedBy := ins.recordedBy }] ∧
    (MemStorage.createContribution s ins).1.currentContributionId =
      s.currentContributionId + 1 := by
  obtain ⟨hmem, hid⟩ := mem_of_findByKey hfind
  rw [createContribution_eq_found s ins st hfresh hfind]
  have hlen : (MemStorage.getContributions
      { s with
        contributions := s.contributions ++
          [{ id := s.currentContributionId, studentId := ins.studentId,
             amount := ins.amount, date := ins.date,
             recordedBy := ins.recordedBy }],
        currentContributionId := s.currentContributionId + 1 }
      { studentId := some st.id, limit := none, offset := none }).length
      = (s.contributions.filter
          (fun c => c.studentId == ins.studentId)).length + 1 := by
    rw [getContributions_by_student _ _ (by rw [hid]; exact hid0)]
    show (List.filter (fun c => c.studentId == st.id)
      (s.contributions ++ [_])).length = _
    rw [hid, List.filter_append, List.length_append]
    simp
  rw [hlen]
  refine ⟨?_, rfl, rfl⟩
  obtain ⟨l1, l2, hsplit, hl1, hsset⟩ := findByKey_decomp hfind
  show findByKey (fun x : Student => x.id)
    (setByKey (fun x : Student => x.id) s.students _) ins.studentId = _
  rw [hsset _ ((applyStudentPatch_id st _).trans hid)]
  exact findByKey_middle hl1 ((applyStudentPatch_id st _).trans hid)

/-- The two backends differ only by the `ORDER BY` on the re-read used for
the first-contribution check, which cannot change its length. -/
theorem getContributions_db_length (s : StoreState) (sid : Option Nat) :
    (DatabaseStorage.getContributions s
      { studentId := sid, limit := none, offset := none }).length =
    (MemStorage.getContributions s
      { studentId := sid, limit := none, offset := none }).length := by
  simp [DatabaseStorage.getContributions, MemStorage.getContributions,
    List.length_insertionSort]

theorem createContribution_db_eq_mem (s : StoreState) (ins : InsertContribution) :
    DatabaseStorage.createContribution s ins = MemStorage.createContribution s ins := by
  unfold DatabaseStorage.createContribution MemStorage.createContribution
  simp only [getContributions_db_length]
  rfl

theorem updateContribution_db_eq_mem (s : StoreState) (id : Nat)
    (p : ContributionPatch) :
    DatabaseStorage.updateContribution s id p = MemStorage.updateContribution s id p := rfl

theorem updateStudent_db_eq_mem :
    @DatabaseStorage.updateStudent = @MemStorage.updateStudent := rfl

/-- The durable `deleteContribution` (whose attendee clamp is skipped on a
falsy stored total) also preserves the invariant on nonnegative ledgers. -/
theorem invariant_deleteContribution_db (s : StoreState) (id : Nat)
    (hWF : WF s) (hnn : ∀ c ∈ s.contributions, 0 ≤ c.amount)
    (hInv : ContribInvariant s) :
    ContribInvariant (DatabaseStorage.deleteContribution s id).1 := by
  obtain ⟨hndS, hndC, hboundS, hboundC⟩ := hWF
  unfold ContribInvariant
  simp only [DatabaseStorage.deleteContribution]
  split
  next hfc => exact hInv
  next c hfc =>
    obtain ⟨hcmem, hcid⟩ := mem_of_findByKey hfc
    obtain ⟨m1, m2, hcsplit, hm1, hcset⟩ := findByKey_decomp hfc
    have hm2 : ∀ b ∈ m2, b.id ≠ id := by
      have := nodup_suffix_ne (f := fun a : Contribution => a.id)
        (k := id) (by rw [← hcsplit]; exact hndC) hcid
      simpa using this
    have herase : eraseByKey (fun a : Contribution => a.id) s.contributions id
        = m1 ++ m2 := by
      rw [hcsplit]
      exact eraseByKey_middle hm1 hm2 hcid
    have hledger : ∀ sid : Nat, ledgerSum s.contributions sid =
        ledgerSum (m1 ++ m2) sid +
          (if c.studentId = sid then c.amount else 0) := by
      intro sid
      rw [hcsplit, ledgerSum_append, ledgerSum_append, ledgerSum_cons]
      ring
    have hrest : ∀ b ∈ m1 ++ m2, 0 ≤ b.amount := by
      intro b hb
      apply hnn
      rw [hcsplit]
      rcases List.mem_append.mp hb with h | h
      · exact List.mem_append_left _ h
      · exact List.mem_append_right _ (List.mem_cons_of_mem c h)
    have hcnn : 0 ≤ c.amount := hnn c hcmem
    split
    next st hgs =>
      obtain ⟨hmem, hid⟩ := mem_of_findByKey hgs
      split
      next hne0 =>
        -- truthy stored total: same clamp as the in-memory backend
        obtain ⟨l1, l2, hssplit, hl1, hsset⟩ := findByKey_decomp hgs
        have hl2 : ∀ b ∈ l2, b.id ≠ c.studentId := by
          have := nodup_suffix_ne (f := fun a : Student => a.id)
            (k := c.studentId) (by rw [← hssplit]; exact hndS) hid
          simpa using this
        have hgs' : findByKey (·.id) s.students st.id = some st := by
          rw [hid]; exact hgs
        rw [updateStudent_db_eq_mem, updateStudent_eq_some s st.id _ st hgs']
        intro x hx
        simp only at hx
        rw [hsset _ ((applyStudentPatch_id st _).trans hid)] at hx
        show x.contributionAmount = ledgerSum (eraseByKey _ _ id) x.id
        rw [herase]
        rcases List.mem_append.mp hx with hx1 | hx2
        · have hxid : x.id ≠ c.studentId := hl1 x hx1
          have hxmem : x ∈ s.students := by
            rw [hssplit]; exact List.mem_append_left _ hx1
          have := hInv x hxmem
          rw [hledger x.id, if_neg (fun h => hxid h.symm), add_zero] at this
          exact this
        · rcases List.mem_cons.mp hx2 with rfl | hx3
          · rw [applyStudentPatch_contributionAmount _ _ _ rfl,
                hInv st hmem, applyStudentPatch_id, hid,
                hledger c.studentId, if_pos rfl]
            have h0 : 0 ≤ ledgerSum (m1 ++ m2) c.studentId :=
              ledgerSum_nonneg hrest
            omega
          · have hxid : x.id ≠ c.studentId := hl2 x hx3
            have hxmem : x ∈ s.students := by
              rw [hssplit]
              exact List.mem_append_right _ (List.mem_cons_of_mem st hx3)
            have := hInv x hxmem
            rw [hledger x.id, if_neg (fun h => hxid h.symm), add_zero] at this
            exact this
      next hne0 =>
        -- stored total is 0: the clamp is skipped, and the invariant forces
        -- the remaining sum to 0 as well
        have hst0 : st.contributionAmount = 0 := by
          by_contra h; exact hne0 h
        have hzero : ledgerSum (m1 ++ m2) c.studentId = 0 ∧ c.amount = 0 := by
          have hsum := hInv st hmem
          rw [hst0, hid, hledger c.studentId, if_pos rfl] at hsum
          have h0 : 0 ≤ ledgerSum (m1 ++ m2) c.studentId :=
            ledgerSum_nonneg hrest
          constructor <;> omega
        intro x hx
        have hx' : x ∈ s.students := hx
        show x.contributionAmount = ledgerSum (eraseByKey _ _ id) x.id
        rw [herase]
        have := hInv x hx'
        rw [hledger x.id] at this
        by_cases hxc : c.studentId = x.id
        · rw [if_pos hxc, hzero.2, add_zero] at this
          exact this
        · rw [if_neg hxc, add_zero] at this
          exact this
    next hgs =>
      intro x hx
      have hx' : x ∈ s.students := hx
      have hxid : x.id ≠ c.studentId := by
        have := findByKey_eq_none_iff.mp hgs x hx'
        simpa using this
      show x.contributionAmount = ledgerSum (eraseByKey _ _ id) x.id
      rw [herase]
      have := hInv x hx'
      rw [hledger x.id, if_neg (fun h => hxid h.symm), add_zero] at this
      exact this

/-! ## Sample states used by witnesses and counterexamples -/

/-- Two attendees, one ledger row, invariant holding. -/
def sampleLedger : StoreState :=
  { students :=
      [{ id := 1, firstName := "", lastName := "", «section» := "A",
         gender := "", mobile := "111",
         attendingStatus := AttendingStatus.not_confirmed,
         paidStatus := PaidStatus.paid, contributionAmount := 5 },
       { id := 2, firstName := "", lastName := "", «section» := "B",
         gender := "", mobile := "222",
         attendingStatus := AttendingStatus.not_confirmed,
         paidStatus := PaidStatus.not_paid, contributionAmount := 0 }],
    contributions :=
      [{ id := 1, studentId := 1, amount := 5, date := 0, recordedBy := 1 }],
    budgetItems := [], expenses := [],
    currentStudentId := 3, currentContributionId := 2 }

/-- The single attendee of `sampleFresh`. -/
def sampleFreshStudent : Student :=
  { id := 1, firstName := "", lastName := "", «section» := "A",
    gender := "", mobile := "111",
    attendingStatus := AttendingStatus.not_confirmed,
    paidStatus := PaidStatus.not_paid, contributionAmount := 0 }

/-- One attendee, `not_paid`, no contributions yet. -/
def sampleFresh : StoreState :=
  { students := [sampleFreshStudent],
    contributions := [], budgetItems := [], expenses := [],
    currentStudentId := 2, currentContributionId := 1 }

/-- No students at all. -/
def sampleNoStudents : StoreState :=
  { students := [], contributions := [], budgetItems := [], expenses := [],
    currentStudentId := 1, currentContributionId := 1 }

/-! ## Claim theorems -/

/-- Claim C1 (amended): on a well-formed state whose ledger amounts are
nonnegative and where every attendee's `contributionAmount` equals their
ledger sum, the sum invariant again holds after any single
`createContribution`, after any `updateContribution` whose patch does not
re-parent the row to a different `studentId`, and after any
`deleteContribution` — in both storage backends. (The original claim, with
no restriction on the update patch, is refuted by `C1_counterexample`.) -/
theorem C1_invariant_after_single_op (s : StoreState)
    (hWF : WF s) (hnn : ∀ c ∈ s.contributions, 0 ≤ c.amount)
    (hInv : ContribInvariant s) :
    (∀ ins : InsertContribution,
      ContribInvariant (MemStorage.createContribution s ins).1 ∧
      ContribInvariant (DatabaseStorage.createContribution s ins).1) ∧
    (∀ (id : Nat) (p : ContributionPatch),
      (∀ c, MemStorage.getContribution s id = some c →
        p.studentId = none ∨ p.studentId = some c.studentId) →
      ContribInvariant (MemStorage.updateContribution s id p).1 ∧
      ContribInvariant (DatabaseStorage.updateContribution s id p).1) ∧
    (∀ id : Nat,
      ContribInvariant (MemStorage.deleteContribution s id).1 ∧
      ContribInvariant (DatabaseStorage.deleteContribution s id).1) := by
  refine ⟨fun ins => ⟨invariant_createContribution s ins hWF hInv, ?_⟩,
          fun id p hp => ⟨invariant_updateContribution s id p hWF hInv hp, ?_⟩,
          fun id => ⟨invariant_deleteContribution s id hWF hnn hInv,
                     invariant_deleteContribution_db s id hWF hnn hInv⟩⟩
  · rw [createContribution_db_eq_mem]
    exact invariant_createContribution s ins hWF hInv
  · rw [updateContribution_db_eq_mem]
    exact invariant_updateContribution s id p hWF hInv hp

/-- Claim C1 counterexample: a single faultless `updateContribution` that only
changes the row's `studentId` re-parents the row without compensating either
attendee's total, breaking the invariant. -/
theorem C1_counterexample :
    ContribInvariant sampleLedger ∧ WF sampleLedger ∧
    (∀ c ∈ sampleLedger.contributions, 0 < c.amount) ∧
    ¬ ContribInvariant
        (MemStorage.updateContribution sampleLedger 1
          { studentId := some 2 }).1 := by decide

/-- Claim C1 witness. -/
theorem C1_invariant_after_single_op_witness :
    WF sampleLedger ∧ (∀ c ∈ sampleLedger.contributions, 0 ≤ c.amount) ∧
    ContribInvariant sampleLedger ∧
    ContribInvariant (MemStorage.createContribution sampleLedger
      { studentId := 2, amount := 3, date := 0, recordedBy := 1 }).1 :=
  ⟨by decide, by decide, by decide,
   ((C1_invariant_after_single_op sampleLedger (by decide) (by decide)
      (by decide)).1
      { studentId := 2, amount := 3, date := 0, recordedBy := 1 }).1⟩

/-- Claim C2 (amended): `createContribution` with an `attendeeId` that matches
no attendee does **not** fail: it still inserts the ledger row and returns
the new `Contribution` record, leaving the attendee table untouched (and the
durable backend behaves identically). -/
theorem C2_create_with_missing_attendee (s : StoreState)
    (ins : InsertContribution) (hWF : WF s)
    (hmiss : MemStorage.getStudent s ins.studentId = none) :
    (MemStorage.createContribution s ins).1.students = s.students ∧
    (MemStorage.createContribution s ins).1.contributions =
      s.contributions ++
        [{ id := s.currentContributionId, studentId := ins.studentId,
           amount := ins.amount, date := ins.date,
           recordedBy := ins.recordedBy }] ∧
    (MemStorage.createContribution s ins).2 =
      { id := s.currentContributionId, studentId := ins.studentId,
        amount := ins.amount, date := ins.date,
        recordedBy := ins.recordedBy } ∧
    DatabaseStorage.createContribution s ins =
      MemStorage.createContribution s ins := by
  obtain ⟨-, -, -, hboundC⟩ := hWF
  have hfresh : ∀ b ∈ s.contributions, b.id ≠ s.currentContributionId :=
    fun b hb => Nat.ne_of_lt (hboundC b hb)
  have hchar := createContribution_eq_missing s ins hfresh hmiss
  refine ⟨?_, ?_, ?_, createContribution_db_eq_mem s ins⟩ <;> rw [hchar]

/-- Claim C2 counterexample: with no attendee `1` in the store, the create
does not fail with NotFound — the ledger row is inserted and the record
returned. -/
theorem C2_counterexample :
    MemStorage.getStudent sampleNoStudents 1 = none ∧
    (MemStorage.createContribution sampleNoStudents
        { studentId := 1, amount := 500, date := 0, recordedBy := 1 }).1.contributions =
      [{ id := 1, studentId := 1, amount := 500, date := 0, recordedBy := 1 }] ∧
    (MemStorage.createContribution sampleNoStudents
        { studentId := 1, amount := 500, date := 0, recordedBy := 1 }).2.amount =
      500 := by decide

/-- Claim C2 witness. -/
theorem C2_create_with_missing_attendee_witness :
    WF sampleNoStudents ∧
    MemStorage.getStudent sampleNoStudents 1 = none ∧
    (MemStorage.createContribution sampleNoStudents
        { studentId := 1, amount := 500, date := 0, recordedBy := 1 }).1.students =
      sampleNoStudents.students :=
  ⟨by decide, by decide,
   (C2_create_with_missing_attendee sampleNoStudents
      { studentId := 1, amount := 500, date := 0, recordedBy := 1 }
      (by decide) (by decide)).1⟩

/-- Claim C3: for an attendee with no prior contributions and
`paidStatus = not_paid`, one `createContribution` flips their status to
`paid`; a second `createContribution` for the same attendee leaves the status
exactly as it was after the first. -/
theorem C3_first_payment_transition (s : StoreState) (a : Student)
    (ins1 ins2 : InsertContribution) (hWF : WF s)
    (hfind : MemStorage.getStudent s a.id = some a)
    (hnp : a.paidStatus = PaidStatus.not_paid)
    (hid0 : a.id ≠ 0)
    (hprior : s.contributions.filter (fun c => c.studentId == a.id) = [])
    (h1 : ins1.studentId = a.id) (h2 : ins2.studentId = a.id) :
    (MemStorage.getStudent (MemStorage.createContribution s ins1).1 a.id).map
        (fun st => st.paidStatus) = some PaidStatus.paid ∧
    (MemStorage.getStudent (MemStorage.createContribution
        (MemStorage.createContribution s ins1).1 ins2).1 a.id).map
        (fun st => st.paidStatus) =
      (MemStorage.getStudent (MemStorage.createContribution s ins1).1 a.id).map
        (fun st => st.paidStatus) := by
  obtain ⟨hndS, hndC, hboundS, hboundC⟩ := hWF
  have hfresh : ∀ b ∈ s.contributions, b.id ≠ s.currentContributionId :=
    fun b hb => Nat.ne_of_lt (hboundC b hb)
  have hfind1 : findByKey (fun x : Student => x.id) s.students ins1.studentId
      = some a := by
    rw [h1]; exact hfind
  obtain ⟨hstud1, hcontrib1, hcur1⟩ :=
    paidStatus_after_create s ins1 a hfresh hfind1 (by rw [h1]; exact hid0)
  rw [h1] at hstud1
  -- the first-ever contribution: the re-read count is 1, status promotes
  have hfresh1 : ∀ b ∈ (MemStorage.createContribution s ins1).1.contributions,
      b.id ≠ (MemStorage.createContribution s ins1).1.currentContributionId := by
    rw [hcontrib1, hcur1]
    intro b hb
    rcases List.mem_append.mp hb with hold | hnew
    · have := hboundC b hold
      omega
    · rcases List.mem_singleton.mp hnew with rfl
      simp
  have hfind2 : findByKey (fun x : Student => x.id)
      (MemStorage.createContribution s ins1).1.students ins2.studentId =
      some (applyStudentPatch a
        { contributionAmount := some (a.contributionAmount + ins1.amount),
          paidStatus :=
            if (s.contributions.filter
                  (fun c => c.studentId == a.id)).length + 1 = 1 ∧
               a.paidStatus ≠ PaidStatus.paid
            then some PaidStatus.paid else none }) := by
    rw [h2]; exact hstud1
  obtain ⟨hstud2, -, -⟩ :=
    paidStatus_after_create (MemStorage.createContribution s ins1).1 ins2 _
      hfresh1 hfind2 (by rw [h2]; exact hid0)
  rw [h2] at hstud2
  constructor
  · rw [hstud1, Option.map_some']
    have hps : (applyStudentPatch a
        { contributionAmount := some (a.contributionAmount + ins1.amount),
          paidStatus :=
            if (s.contributions.filter
                  (fun c => c.studentId == a.id)).length + 1 = 1 ∧
               a.paidStatus ≠ PaidStatus.paid
            then some PaidStatus.paid else none }).paidStatus =
        PaidStatus.paid := by
      apply applyStudentPatch_paidStatus_some
      show (if _ then _ else _) = _
      rw [if_pos]
      constructor
      · rw [hprior]
        rfl
      · rw [hnp]
        simp
    rw [hps]
  · rw [hstud1, hstud2, Option.map_some', Option.map_some']
    have hps2 : (applyStudentPatch
        (applyStudentPatch a
          { contributionAmount := some (a.contributionAmount + ins1.amount),
            paidStatus :=
              if (s.contributions.filter
                    (fun c => c.studentId == a.id)).length + 1 = 1 ∧
                 a.paidStatus ≠ PaidStatus.paid
              then some PaidStatus.paid else none })
        { contributionAmount := some ((applyStudentPatch a
            { contributionAmount := some (a.contributionAmount + ins1.amount),
              paidStatus :=
                if (s.contributions.filter
                      (fun c => c.studentId == a.id)).length + 1 = 1 ∧
                   a.paidStatus ≠ PaidStatus.paid
                then some PaidStatus.paid else none }).contributionAmount
              + ins2.amount),
          paidStatus :=
            if ((MemStorage.createContribution s ins1).1.contributions.filter
                  (fun c => c.studentId == a.id)).length + 1 = 1 ∧
               (applyStudentPatch a
                  { contributionAmount :=
                      some (a.contributionAmount + ins1.amount),
                    paidStatus :=
                      if (s.contributions.filter
                            (fun c => c.studentId == a.id)).length + 1 = 1 ∧
                         a.paidStatus ≠ PaidStatus.paid
                      then some PaidStatus.paid else none }).paidStatus ≠
                 PaidStatus.paid
            then some PaidStatus.paid else none }).paidStatus =
      (applyStudentPatch a
        { contributionAmount := some (a.contributionAmount + ins1.amount),
          paidStatus :=
            if (s.contributions.filter
                  (fun c => c.studentId == a.id)).length + 1 = 1 ∧
               a.paidStatus ≠ PaidStatus.paid
            then some PaidStatus.paid else none }).paidStatus := by
      apply applyStudentPatch_paidStatus_none
      show (if _ then _ else _) = _
      rw [if_neg]
      intro hcond
      have hl := hcond.1
      rw [hcontrib1, List.filter_append, hprior, List.nil_append] at hl
      have : (List.filter (fun c : Contribution => c.studentId == a.id)
          [{ id := s.currentContributionId, studentId := ins1.studentId,
             amount := ins1.amount, date := ins1.date,
             recordedBy := ins1.recordedBy }]).length = 1 := by
        simp [h1]
      omega
    rw [hps2]

/-- Claim C3 witness. -/
theorem C3_first_payment_transition_witness :
    WF sampleFresh ∧
    (MemStorage.getStudent (MemStorage.createContribution sampleFresh
        { studentId := 1, amount := 500, date := 0, recordedBy := 1 }).1
        sampleFreshStudent.id).map (fun st => st.paidStatus) =
      some PaidStatus.paid :=
  ⟨by decide,
   (C3_first_payment_transition sampleFresh sampleFreshStudent
      { studentId := 1, amount := 500, date := 0, recordedBy := 1 }
      { studentId := 1, amount := 300, date := 0, recordedBy := 1 }
      (by decide) (by decide) rfl (by decide) (by decide) rfl rfl).1⟩

/-- Claim C5: `updateContribution` on a missing id returns an absent result and
`deleteContribution` on a missing id returns `false`, in both backends; in
every case the whole store state is returned unchanged, so the existence
check precedes any attendee mutation. -/
theorem C5_missing_contribution_id (s : StoreState) (id : Nat)
    (p : ContributionPatch)
    (h : MemStorage.getContribution s id = none) :
    MemStorage.updateContribution s id p = (s, none) ∧
    MemStorage.deleteContribution s id = (s, false) ∧
    DatabaseStorage.updateContribution s id p = (s, none) ∧
    DatabaseStorage.deleteContribution s id = (s, false) := by
  have h' : findByKey (fun x : Contribution => x.id) s.contributions id = none := h
  refine ⟨?_, ?_, ?_, ?_⟩ <;>
    simp [MemStorage.updateContribution, MemStorage.deleteContribution,
      DatabaseStorage.updateContribution, DatabaseStorage.deleteContribution, h']

/-- Claim C5 witness. -/
theorem C5_missing_contribution_id_witness :
    MemStorage.getContribution sampleNoStudents 7 = none ∧
    MemStorage.updateContribution sampleNoStudents 7 { amount := some 5 } =
      (sampleNoStudents, none) ∧
    MemStorage.deleteContribution sampleNoStudents 7 =
      (sampleNoStudents, false) :=
  ⟨by decide,
   (C5_missing_contribution_id sampleNoStudents 7 { amount := some 5 }
      (by decide)).1,
   (C5_missing_contribution_id sampleNoStudents 7 { amount := some 5 }
      (by decide)).2.1⟩

/-- Claim C6: deleting an existing contribution sets the owning attendee's
stored total to `max 0 (current − amount)` in both backends, so the stored
total never goes negative, even if drift made `current < amount`. -/
theorem C6_delete_clamps_at_zero (s : StoreState) (cid : Nat)
    (c : Contribution) (st : Student)
    (hfc : MemStorage.getContribution s cid = some c)
    (hgs : MemStorage.getStudent s c.studentId = some st)
    (hnn : 0 ≤ c.amount) :
    MemStorage.getStudent (MemStorage.deleteContribution s cid).1 c.studentId =
      some { st with
             contributionAmount := max 0 (st.contributionAmount - c.amount) } ∧
    DatabaseStorage.getStudent (DatabaseStorage.deleteContribution s cid).1
        c.studentId =
      some { st with
             contributionAmount := max 0 (st.contributionAmount - c.amount) } ∧
    (0 : Int) ≤ max 0 (st.contributionAmount - c.amount) := by
  obtain ⟨hsmem, hsid⟩ := mem_of_findByKey hgs
  obtain ⟨l1, l2, hsplit, hl1, hsset⟩ := findByKey_decomp hgs
  have hgs' : findByKey (fun x : Student => x.id) s.students st.id = some st := by
    rw [hsid]; exact hgs
  have hfc' : findByKey (fun x : Contribution => x.id) s.contributions cid
      = some c := hfc
  refine ⟨?_, ?_, le_max_left 0 _⟩
  · simp only [MemStorage.deleteContribution]
    rw [hfc']
    dsimp only
    have hgs2 : MemStorage.getStudent s c.studentId = some st := hgs
    rw [hgs2]
    dsimp only
    rw [updateStudent_eq_some s st.id _ st hgs']
    show findByKey (fun x : Student => x.id)
      (setByKey (fun x : Student => x.id) s.students _) c.studentId = _
    rw [hsset _ ((applyStudentPatch_id st _).trans hsid),
        findByKey_middle hl1 ((applyStudentPatch_id st _).trans hsid)]
    rfl
  · simp only [DatabaseStorage.deleteContribution]
    rw [hfc']
    dsimp only
    have hgs2 : DatabaseStorage.getStudent s c.studentId = some st := hgs
    rw [hgs2]
    dsimp only
    by_cases h0 : st.contributionAmount = 0
    · rw [if_neg (not_not_intro h0)]
      show findByKey (fun x : Student => x.id) s.students c.studentId = _
      have hmax : max 0 (st.contributionAmount - c.amount)
          = st.contributionAmount := by
        rw [h0]
        omega
      rw [hmax]
      exact hgs
    · rw [if_pos h0]
      rw [updateStudent_db_eq_mem, updateStudent_eq_some s st.id _ st hgs']
      show findByKey (fun x : Student => x.id)
        (setByKey (fun x : Student => x.id) s.students _) c.studentId = _
      rw [hsset _ ((applyStudentPatch_id st _).trans hsid),
          findByKey_middle hl1 ((applyStudentPatch_id st _).trans hsid)]
      rfl

/-- Claim C6 witness. -/
theorem C6_delete_clamps_at_zero_witness :
    MemStorage.getContribution sampleLedger 1 =
      some { id := 1, studentId := 1, amount := 5, date := 0, recordedBy := 1 } ∧
    MemStorage.getStudent (MemStorage.deleteContribution sampleLedger 1).1 1 =
      some { id := 1, firstName := "", lastName := "", «section» := "A",
             gender := "", mobile := "111",
             attendingStatus := AttendingStatus.not_confirmed,
             paidStatus := PaidStatus.paid, contributionAmount := 0 } :=
  ⟨by decide,
   (C6_delete_clamps_at_zero sampleLedger 1
      { id := 1, studentId := 1, amount := 5, date := 0, recordedBy := 1 }
      { id := 1, firstName := "", lastName := "", «section» := "A",
        gender := "", mobile := "111",
        attendingStatus := AttendingStatus.not_confirmed,
        paidStatus := PaidStatus.paid, contributionAmount := 5 }
      (by decide) (by decide) (by decide)).1⟩

/-- Two ledger rows (used to exhibit the in-memory pagination gap). -/
def sampleTwoRows : StoreState :=
  { students := [], contributions :=
      [{ id := 1, studentId := 1, amount := 5, date := 0, recordedBy := 1 },
       { id := 2, studentId := 1, amount := 7, date := 0, recordedBy := 1 }],
    budgetItems := [], expenses := [],
    currentStudentId := 1, currentContributionId := 3 }

/-- Claim C4 (amended): pagination is applied after the `attendeeId` filter in
both backends, but the backends honour it differently. In the durable
backend a nonzero `limit` truncates to at most `limit` rows, with `offset`
honoured exactly when `limit` is also given; in the in-memory backend the
slice happens only when **both** `limit` and `offset` are present, and a
`limit` without `offset` does not truncate at all. `offset` without `limit`
is ignored by both. (The original claim — limit alone truncates in both
backends — is refuted by `C4_counterexample`.) -/
theorem C4_pagination_after_filter (s : StoreState) (sid : Option Nat)
    (l off : Nat) (hl : 0 < l) :
    (DatabaseStorage.getContributions s
      { studentId := sid, limit := some l, offset := none }).length ≤ l ∧
    (DatabaseStorage.getContributions s
      { studentId := sid, limit := some l, offset := some off }).length ≤ l ∧
    DatabaseStorage.getContributions s
        { studentId := sid, limit := some l, offset := some off } =
      ((DatabaseStorage.getContributions s
          { studentId := sid, limit := none, offset := none }).drop off).take l ∧
    DatabaseStorage.getContributions s
        { studentId := sid, limit := some l, offset := none } =
      (DatabaseStorage.getContributions s
        { studentId := sid, limit := none, offset := none }).take l ∧
    DatabaseStorage.getContributions s
        { studentId := sid, limit := none, offset := some off } =
      DatabaseStorage.getContributions s
        { studentId := sid, limit := none, offset := none } ∧
    MemStorage.getContributions s
        { studentId := sid, limit := some l, offset := some off } =
      ((MemStorage.getContributions s
          { studentId := sid, limit := none, offset := none }).drop off).take l ∧
    MemStorage.getContributions s
        { studentId := sid, limit := none, offset := some off } =
      MemStorage.getContributions s
        { studentId := sid, limit := none, offset := none } ∧
    MemStorage.getContributions s
        { studentId := sid, limit := some l, offset := none } =
      MemStorage.getContributions s
        { studentId := sid, limit := none, offset := none } := by
  have hne : l ≠ 0 := Nat.pos_iff_ne_zero.mp hl
  refine ⟨?_, ?_, ?_, ?_, rfl, rfl, rfl, rfl⟩
  · simp only [DatabaseStorage.getContributions]
    rw [if_pos hne]
    exact List.length_take_le _ _
  · simp only [DatabaseStorage.getContributions]
    rw [if_pos hne]
    exact List.length_take_le _ _
  · simp only [DatabaseStorage.getContributions]
    rw [if_pos hne]
  · simp only [DatabaseStorage.getContributions]
    rw [if_pos hne]

/-- Claim C4 counterexample: the in-memory backend with `limit = 1` and no
`offset` returns both rows — the result is not truncated to one record. -/
theorem C4_counterexample :
    (MemStorage.getContributions sampleTwoRows
      { studentId := none, limit := some 1, offset := none }).length = 2 ∧
    ¬ (MemStorage.getContributions sampleTwoRows
        { studentId := none, limit := some 1, offset := none }).length ≤ 1 := by
  decide

/-- Claim C4 witness. -/
theorem C4_pagination_after_filter_witness :
    (0 : Nat) < 1 ∧
    (DatabaseStorage.getContributions sampleTwoRows
      { studentId := none, limit := some 1, offset := none }).length ≤ 1 :=
  ⟨by decide,
   (C4_pagination_after_filter sampleTwoRows none 1 0 (by decide)).1⟩

/-- A state with contributions and expenses but no budget items. -/
def sampleMemUtil : StoreState :=
  { students :=
      [{ id := 1, firstName := "", lastName := "", «section» := "A",
         gender := "", mobile := "111",
         attendingStatus := AttendingStatus.not_confirmed,
         paidStatus := PaidStatus.paid, contributionAmount := 100 }],
    contributions := [], budgetItems := [],
    expenses := [{ id := 1, category := "venue", amount := 50, date := 0 }],
    currentStudentId := 2, currentContributionId := 1 }

/-- A state with a positive budget. -/
def sampleDbUtil : StoreState :=
  { students := [], contributions := [],
    budgetItems := [{ id := 1, category := "venue", estimatedAmount := 200 }],
    expenses := [{ id := 1, category := "venue", amount := 50, date := 0 }],
    currentStudentId := 1, currentContributionId := 1 }

/-- Claim C7 (amended): the durable dashboard computes
`budgetUtilization = round(totalExpenses/totalBudget × 100)` when
`totalBudget > 0` (characterised as the integer nearest the exact ratio,
ties rounding up) and `0` when `totalBudget = 0`; the in-memory dashboard
instead divides by `totalContributions || 1`, the sum of the students'
denormalized totals. (The original claim, asserted of every dashboard
summary, fails on the in-memory backend — `C7_counterexample`.) -/
theorem C7_budget_utilization (s : StoreState) :
    (DatabaseStorage.getDashboardSummary s).budgetUtilization =
      (if 0 < (s.budgetItems.map (·.estimatedAmount)).sum
       then ratRound (100 * (s.expenses.map (·.amount)).sum)
              ((s.budgetItems.map (·.estimatedAmount)).sum)
       else 0) ∧
    (0 < (s.budgetItems.map (·.estimatedAmount)).sum →
      (2 * (DatabaseStorage.getDashboardSummary s).budgetUtilization - 1) *
          (s.budgetItems.map (·.estimatedAmount)).sum ≤
        200 * (s.expenses.map (·.amount)).sum ∧
      200 * (s.expenses.map (·.amount)).sum <
        (2 * (DatabaseStorage.getDashboardSummary s).budgetUtilization + 1) *
          (s.budgetItems.map (·.estimatedAmount)).sum) ∧
    (MemStorage.getDashboardSummary s).budgetUtilization =
      ratRound (100 * (s.expenses.map (·.amount)).sum)
        (if (s.students.map (·.contributionAmount)).sum = 0 then 1
         else (s.students.map (·.contributionAmount)).sum) := by
  refine ⟨rfl, ?_, ?_⟩
  · intro hB
    set B : Int := (s.budgetItems.map (·.estimatedAmount)).sum with hBdef
    set E : Int := (s.expenses.map (·.amount)).sum with hEdef
    have ha : (DatabaseStorage.getDashboardSummary s).budgetUtilization =
        ratRound (100 * E) B := by
      show (if 0 < B then ratRound (100 * E) B else 0) = _
      rw [if_pos hB]
    rw [ha]
    unfold ratRound
    rw [Int.fdiv_eq_ediv _ (by omega : (0:Int) ≤ 2 * B)]
    have hdiv := Int.ediv_add_emod (2 * (100 * E) + B) (2 * B)
    have hm0 : 0 ≤ (2 * (100 * E) + B) % (2 * B) :=
      Int.emod_nonneg _ (by omega : (2 * B : Int) ≠ 0)
    have hlt : (2 * (100 * E) + B) % (2 * B) < 2 * B :=
      Int.emod_lt_of_pos _ (by omega : (0:Int) < 2 * B)
    constructor <;> nlinarith [hdiv, hm0, hlt]
  · simp only [MemStorage.getDashboardSummary]
    rw [foldl_add_eq_sum, foldl_add_eq_sum]
    simp

/-- Claim C7 counterexample: with no budget items (`totalBudget = 0`) but
nonzero contributions, the in-memory dashboard reports utilization 50, not
the 0 the claim requires. -/
theorem C7_counterexample :
    (sampleMemUtil.budgetItems.map (·.estimatedAmount)).sum = 0 ∧
    (MemStorage.getDashboardSummary sampleMemUtil).budgetUtilization = 50 ∧
    ¬ (MemStorage.getDashboardSummary sampleMemUtil).budgetUtilization = 0 := by
  decide

/-- Claim C7 witness. -/
theorem C7_budget_utilization_witness :
    (0:Int) < (sampleDbUtil.budgetItems.map (·.estimatedAmount)).sum ∧
    (2 * (DatabaseStorage.getDashboardSummary sampleDbUtil).budgetUtilization - 1) *
        (sampleDbUtil.budgetItems.map (·.estimatedAmount)).sum ≤
      200 * (sampleDbUtil.expenses.map (·.amount)).sum :=
  ⟨by decide, ((C7_budget_utilization sampleDbUtil).2.1 (by decide)).1⟩

/-- Spec-side per-category planned total: sum of `estimatedAmount` over the
budget rows of that category. -/
def estSum (s : StoreState) (cat : String) : Int :=
  ((s.budgetItems.filter (fun b => b.category == cat)).map (·.estimatedAmount)).sum

/-- Spec-side per-category actual total: sum of `amount` over the expense
rows of that category. -/
def actSum (s : StoreState) (cat : String) : Int :=
  ((s.expenses.filter (fun e => e.category == cat)).map (·.amount)).sum

/-- Looking a category up in the `reduce`-built record yields the filtered
sum of the expense amounts. -/
theorem expensesByCategory_lookup (es : List Expense) :
    ∀ (acc : String → Int) (cat : String),
      (es.foldl (fun acc e => fun k =>
        if k = e.category then acc k + e.amount else acc k) acc) cat =
      acc cat + ((es.filter (fun e => e.category == cat)).map (·.amount)).sum := by
  induction es with
  | nil =>
      intro acc cat
      simp
  | cons e t ih =>
      intro acc cat
      rw [List.foldl_cons, ih]
      show (if cat = e.category then acc cat + e.amount else acc cat) + _ =
        acc cat + _
      by_cases hc : cat = e.category
      · rw [if_pos hc, List.filter_cons,
            if_pos (by simp only [beq_iff_eq]; exact hc.symm)]
        simp only [List.map_cons, List.sum_cons]
        ring
      · rw [if_neg hc, List.filter_cons,
            if_neg (by simp only [beq_iff_eq]; exact fun h => hc h.symm)]

/-- The in-memory breakdown, entry by entry. -/
theorem mem_breakdown_eq (s : StoreState) :
    (MemStorage.getBudgetSummary s).categoryBreakdown =
      fixedCategories.map (fun cat =>
        { category := cat, estimatedAmount := estSum s cat,
          actualAmount := actSum s cat }) := by
  simp only [MemStorage.getBudgetSummary]
  apply List.map_congr_left
  intro cat hcat
  unfold estSum actSum
  rw [foldl_add_eq_sum, foldl_add_eq_sum]
  simp

/-- The durable breakdown, entry by entry. -/
theorem db_breakdown_eq (s : StoreState) :
    (DatabaseStorage.getBudgetSummary s).categoryBreakdown =
      fixedCategories.map (fun cat =>
        { category := cat, estimatedAmount := estSum s cat,
          actualAmount := actSum s cat }) := by
  simp only [DatabaseStorage.getBudgetSummary]
  apply List.map_congr_left
  intro cat hcat
  unfold estSum actSum
  rw [foldl_add_eq_sum]
  unfold DatabaseStorage.expensesByCategory
  rw [expensesByCategory_lookup]
  simp

/-- Claim C8: in both backends, each of the nine fixed categories gets a
breakdown entry whose `estimatedAmount` is the sum of the BudgetItem rows of
that category and whose `actualAmount` is the sum of the Expense rows of
that category; rows whose category lies outside the fixed list contribute to
no entry. -/
theorem C8_category_breakdown (s : StoreState) :
    (MemStorage.getBudgetSummary s).categoryBreakdown =
      fixedCategories.map (fun cat =>
        { category := cat, estimatedAmount := estSum s cat,
          actualAmount := actSum s cat }) ∧
    (DatabaseStorage.getBudgetSummary s).categoryBreakdown =
      fixedCategories.map (fun cat =>
        { category := cat, estimatedAmount := estSum s cat,
          actualAmount := actSum s cat }) ∧
    (∀ b : BudgetItem, b.category ∉ fixedCategories →
      (MemStorage.getBudgetSummary
          { s with budgetItems := s.budgetItems ++ [b] }).categoryBreakdown =
        (MemStorage.getBudgetSummary s).categoryBreakdown ∧
      (DatabaseStorage.getBudgetSummary
          { s with budgetItems := s.budgetItems ++ [b] }).categoryBreakdown =
        (DatabaseStorage.getBudgetSummary s).categoryBreakdown) ∧
    (∀ e : Expense, e.category ∉ fixedCategories →
      (MemStorage.getBudgetSummary
          { s with expenses := s.expenses ++ [e] }).categoryBreakdown =
        (MemStorage.getBudgetSummary s).categoryBreakdown ∧
      (DatabaseStorage.getBudgetSummary
          { s with expenses := s.expenses ++ [e] }).categoryBreakdown =
        (DatabaseStorage.getBudgetSummary s).categoryBreakdown) := by
  have hest : ∀ (b : BudgetItem), b.category ∉ fixedCategories →
      ∀ cat ∈ fixedCategories,
        estSum { s with budgetItems := s.budgetItems ++ [b] } cat
          = estSum s cat := by
    intro b hb cat hcat
    have hbc : (b.category == cat) = false := by
      simp only [beq_eq_false_iff_ne]
      intro h
      exact hb (h ▸ hcat)
    unfold estSum
    show ((List.filter _ (s.budgetItems ++ [b])).map _).sum = _
    rw [List.filter_append]
    simp [List.filter_cons, hbc]
  have hact : ∀ (e : Expense), e.category ∉ fixedCategories →
      ∀ cat ∈ fixedCategories,
        actSum { s with expenses := s.expenses ++ [e] } cat = actSum s cat := by
    intro e he cat hcat
    have hec : (e.category == cat) = false := by
      simp only [beq_eq_false_iff_ne]
      intro h
      exact he (h ▸ hcat)
    unfold actSum
    show ((List.filter _ (s.expenses ++ [e])).map _).sum = _
    rw [List.filter_append]
    simp [List.filter_cons, hec]
  refine ⟨mem_breakdown_eq s, db_breakdown_eq s, fun b hb => ⟨?_, ?_⟩,
    fun e he => ⟨?_, ?_⟩⟩
  · rw [mem_breakdown_eq, mem_breakdown_eq]
    apply List.map_congr_left
    intro cat hcat
    rw [hest b hb cat hcat]
    rfl
  · rw [db_breakdown_eq, db_breakdown_eq]
    apply List.map_congr_left
    intro cat hcat
    rw [hest b hb cat hcat]
    rfl
  · rw [mem_breakdown_eq, mem_breakdown_eq]
    apply List.map_congr_left
    intro cat hcat
    rw [hact e he cat hcat]
    rfl
  · rw [db_breakdown_eq, db_breakdown_eq]
    apply List.map_congr_left
    intro cat hcat
    rw [hact e he cat hcat]
    rfl

/-- One venue budget item and one venue expense (the spec's own scenario). -/
def sampleBudget : StoreState :=
  { students := [], contributions := [],
    budgetItems := [{ id := 1, category := "venue", estimatedAmount := 1000 }],
    expenses := [{ id := 1, category := "venue", amount := 400, date := 0 }],
    currentStudentId := 1, currentContributionId := 1 }

/-- Claim C8 witness. -/
theorem C8_category_breakdown_witness :
    ("decorationX" ∉ fixedCategories) ∧
    (MemStorage.getBudgetSummary
        { sampleBudget with budgetItems := sampleBudget.budgetItems ++
            [{ id := 2, category := "decorationX", estimatedAmount := 7 }] }).categoryBreakdown =
      (MemStorage.getBudgetSummary sampleBudget).categoryBreakdown :=
  ⟨by decide,
   ((C8_category_breakdown sampleBudget).2.2.1
      { id := 2, category := "decorationX", estimatedAmount := 7 }
      (by decide)).1⟩

/-- In a list with pairwise-distinct keys, looking up a member's key finds
that very member. -/
theorem findByKey_of_mem_nodup {key : α → Nat} {l : List α} {x : α}
    (hnd : (l.map key).Nodup) (hx : x ∈ l) :
    findByKey key l (key x) = some x := by
  induction l with
  | nil => cases hx
  | cons a t ih =>
      rw [List.map_cons, List.nodup_cons] at hnd
      rcases List.mem_cons.mp hx with rfl | hxt
      · unfold findByKey
        exact List.find?_cons_of_pos _ (by simp)
      · have ha : key a ≠ key x := by
          intro h
          exact hnd.1 (h ▸ List.mem_map_of_mem key hxt)
        unfold findByKey at ih ⊢
        rw [List.find?_cons_of_neg _ (by simpa using ha)]
        exact ih hnd.2 hxt

/-- One loop iteration only ever appends to the output accumulator. -/
theorem importStudentStep_shift (a : StoreState) (out : List Student)
    (r : InsertStudent) :
    MemStorage.importStudentStep (a, out) r =
      ((MemStorage.importStudentStep (a, []) r).1,
       out ++ (MemStorage.importStudentStep (a, []) r).2) := by
  unfold MemStorage.importStudentStep
  dsimp only
  cases hm : MemStorage.getStudentByMobile a r.mobile with
  | none => simp
  | some ex =>
      dsimp only
      rcases hu : MemStorage.updateStudent a ex.id (patchOfInsert r) with ⟨s1, u⟩
      cases u <;> simp

/-- The whole loop only ever appends to the output accumulator. -/
theorem bulkImport_foldl_shift (recs : List InsertStudent) :
    ∀ (a : StoreState) (out : List Student),
      recs.foldl MemStorage.importStudentStep (a, out) =
        ((recs.foldl MemStorage.importStudentStep (a, [])).1,
         out ++ (recs.foldl MemStorage.importStudentStep (a, [])).2) := by
  induction recs with
  | nil => intro a out; simp
  | cons r t ih =>
      intro a out
      rw [List.foldl_cons, List.foldl_cons, importStudentStep_shift a out r,
          importStudentStep_shift a [] r, List.nil_append]
      rw [ih (MemStorage.importStudentStep (a, []) r).1
            (out ++ (MemStorage.importStudentStep (a, []) r).2),
          ih (MemStorage.importStudentStep (a, []) r).1
            (MemStorage.importStudentStep (a, []) r).2]
      rw [List.append_assoc]

/-- Each iteration pushes exactly one attendee (the update branch always
finds the row it just looked up). -/
theorem importStudentStep_out_length (a : StoreState) (r : InsertStudent)
    (hnd : (a.students.map (·.id)).Nodup) :
    (MemStorage.importStudentStep (a, []) r).2.length = 1 := by
  unfold MemStorage.importStudentStep
  dsimp only
  cases hm : MemStorage.getStudentByMobile a r.mobile with
  | none => simp
  | some ex =>
      dsimp only
      have hexmem : ex ∈ a.students := List.mem_of_find?_eq_some hm
      have hfind : findByKey (fun x : Student => x.id) a.students ex.id
          = some ex := findByKey_of_mem_nodup hnd hexmem
      rw [updateStudent_eq_some a ex.id _ ex hfind]
      simp

/-- The `WF` survives one import iteration. -/
theorem importStudentStep_WF (a : StoreState) (r : InsertStudent)
    (hWF : WF a) : WF (MemStorage.importStudentStep (a, []) r).1 := by
  obtain ⟨hndS, hndC, hboundS, hboundC⟩ := hWF
  unfold MemStorage.importStudentStep
  dsimp only
  cases hm : MemStorage.getStudentByMobile a r.mobile with
  | none =>
      dsimp only
      have hfreshS : ∀ b ∈ a.students,
          (fun x : Student => x.id) b ≠ (fun x : Student => x.id)
            { id := a.currentStudentId, firstName := r.firstName,
              lastName := r.lastName, «section» := r.«section»,
              gender := r.gender, mobile := r.mobile,
              attendingStatus := r.attendingStatus,
              paidStatus := r.paidStatus,
              contributionAmount := r.contributionAmount } :=
        fun b hb => Nat.ne_of_lt (hboundS b hb)
      simp only [MemStorage.createStudent]
      rw [setByKey_of_forall_ne hfreshS]
      refine ⟨?_, hndC, ?_, hboundC⟩
      · rw [List.map_append, List.nodup_append]
        refine ⟨hndS, by simp, ?_⟩
        intro x hx hx2
        obtain ⟨b, hb, rfl⟩ := List.mem_map.mp hx
        simp only [List.map_cons, List.map_nil, List.mem_singleton] at hx2
        exact Nat.ne_of_lt (hboundS b hb) hx2
      · intro st hst
        show st.id < a.currentStudentId + 1
        rcases List.mem_append.mp hst with h | h
        · have := hboundS st h
          omega
        · rcases List.mem_singleton.mp h with rfl
          show a.currentStudentId < a.currentStudentId + 1
          omega
  | some ex =>
      dsimp only
      have hexmem : ex ∈ a.students := List.mem_of_find?_eq_some hm
      have hfind : findByKey (fun x : Student => x.id) a.students ex.id
          = some ex := findByKey_of_mem_nodup hndS hexmem
      rw [updateStudent_eq_some a ex.id _ ex hfind]
      obtain ⟨l1, l2, hsplit, hl1, hsset⟩ := findByKey_decomp hfind
      rw [hsset _ (applyStudentPatch_id ex _)]
      refine ⟨?_, hndC, ?_, hboundC⟩
      · have : (l1 ++ applyStudentPatch ex (patchOfInsert r) :: l2).map
            (fun x : Student => x.id) =
            (l1 ++ ex :: l2).map (fun x : Student => x.id) := by
          simp [applyStudentPatch_id]
        rw [this, ← hsplit]
        exact hndS
      · intro st hst
        rcases List.mem_append.mp hst with h | h
        · exact hboundS st (by rw [hsplit]; exact List.mem_append_left _ h)
        · rcases List.mem_cons.mp h with rfl | h2
          · show (applyStudentPatch ex (patchOfInsert r)).id < _
            rw [applyStudentPatch_id]
            exact hboundS ex hexmem
          · exact hboundS st
              (by rw [hsplit]
                  exact List.mem_append_right _ (List.mem_cons_of_mem ex h2))

/-- The `bulkImport_foldl_shift`, stated for an arbitrary accumulator pair. -/
theorem bulkImport_foldl_shift' (recs : List InsertStudent)
    (p : StoreState × List Student) :
    recs.foldl MemStorage.importStudentStep p =
      ((recs.foldl MemStorage.importStudentStep (p.1, [])).1,
       p.2 ++ (recs.foldl MemStorage.importStudentStep (p.1, [])).2) := by
  obtain ⟨a, out⟩ := p
  exact bulkImport_foldl_shift recs a out

/-- Bulk import returns one record per input record. -/
theorem bulkImport_length (recs : List InsertStudent) :
    ∀ s : StoreState, WF s →
      (MemStorage.bulkImportStudents s recs).2.length = recs.length := by
  induction recs with
  | nil => intro s _; rfl
  | cons r t ih =>
      intro s hWF
      have hWF' := hWF
      obtain ⟨hndS, -, -, -⟩ := hWF'
      unfold MemStorage.bulkImportStudents at ih ⊢
      rw [List.foldl_cons,
          bulkImport_foldl_shift' t (MemStorage.importStudentStep (s, []) r)]
      show ((MemStorage.importStudentStep (s, []) r).2 ++ _).length = _
      rw [List.length_append, importStudentStep_out_length s r hndS,
          ih _ (importStudentStep_WF s r hWF)]
      simp [Nat.add_comm]

/-- Claim C9: bulk import processes records in input order and returns the
resulting attendees in input order (empty batch and cons-step
decomposition); a record whose mobile matches an existing attendee updates
that attendee in place — same id, every imported field overwriting the
stored one; a record with a novel mobile creates a new attendee under the
fresh id `currentStudentId`, which no existing attendee carries; and the
output has exactly one record per input record. -/
theorem C9_bulk_import_upsert (s : StoreState) (hWF : WF s) :
    MemStorage.bulkImportStudents s [] = (s, []) ∧
    (∀ (r : InsertStudent) (rs : List InsertStudent),
      MemStorage.bulkImportStudents s (r :: rs) =
        ((MemStorage.bulkImportStudents
            (MemStorage.importStudentStep (s, []) r).1 rs).1,
         (MemStorage.importStudentStep (s, []) r).2 ++
           (MemStorage.bulkImportStudents
             (MemStorage.importStudentStep (s, []) r).1 rs).2)) ∧
    (∀ (r : InsertStudent) (ex : Student),
      MemStorage.getStudentByMobile s r.mobile = some ex →
      MemStorage.bulkImportStudents s [r] =
        ({ s with
            students := setByKey (fun x : Student => x.id) s.students
              (applyStudentPatch ex (patchOfInsert r)) },
         [applyStudentPatch ex (patchOfInsert r)]) ∧
      (applyStudentPatch ex (patchOfInsert r)).id = ex.id ∧
      (applyStudentPatch ex (patchOfInsert r)).firstName = r.firstName ∧
      (applyStudentPatch ex (patchOfInsert r)).lastName = r.lastName ∧
      (applyStudentPatch ex (patchOfInsert r)).«section» = r.«section» ∧
      (applyStudentPatch ex (patchOfInsert r)).gender = r.gender ∧
      (applyStudentPatch ex (patchOfInsert r)).mobile = r.mobile ∧
      (applyStudentPatch ex (patchOfInsert r)).attendingStatus =
        r.attendingStatus ∧
      (applyStudentPatch ex (patchOfInsert r)).paidStatus = r.paidStatus ∧
      (applyStudentPatch ex (patchOfInsert r)).contributionAmount =
        r.contributionAmount) ∧
    (∀ r : InsertStudent,
      MemStorage.getStudentByMobile s r.mobile = none →
      MemStorage.bulkImportStudents s [r] =
        ({ s with
            students := s.students ++
              [{ id := s.currentStudentId, firstName := r.firstName,
                 lastName := r.lastName, «section» := r.«section»,
                 gender := r.gender, mobile := r.mobile,
                 attendingStatus := r.attendingStatus,
                 paidStatus := r.paidStatus,
                 contributionAmount := r.contributionAmount }],
            currentStudentId := s.currentStudentId + 1 },
         [{ id := s.currentStudentId, firstName := r.firstName,
            lastName := r.lastName, «section» := r.«section»,
            gender := r.gender, mobile := r.mobile,
            attendingStatus := r.attendingStatus,
            paidStatus := r.paidStatus,
            contributionAmount := r.contributionAmount }]) ∧
      s.currentStudentId ∉ s.students.map (fun x : Student => x.id)) ∧
    (∀ recs : List InsertStudent,
      (MemStorage.bulkImportStudents s recs).2.length = recs.length) := by
  have hWF' := hWF
  obtain ⟨hndS, hndC, hboundS, hboundC⟩ := hWF'
  refine ⟨rfl, ?_, ?_, ?_, fun recs => bulkImport_length recs s hWF⟩
  · intro r rs
    exact bulkImport_foldl_shift' rs (MemStorage.importStudentStep (s, []) r)
  · intro r ex hm
    have hexmem : ex ∈ s.students := List.mem_of_find?_eq_some hm
    have hfind : findByKey (fun x : Student => x.id) s.students ex.id
        = some ex := findByKey_of_mem_nodup hndS hexmem
    refine ⟨?_, rfl, rfl, rfl, rfl, rfl, rfl, rfl, rfl, rfl⟩
    unfold MemStorage.bulkImportStudents
    rw [List.foldl_cons, List.foldl_nil]
    unfold MemStorage.importStudentStep
    dsimp only
    rw [hm]
    dsimp only
    rw [updateStudent_eq_some s ex.id _ ex hfind]
    rfl
  · intro r hm
    constructor
    · unfold MemStorage.bulkImportStudents
      rw [List.foldl_cons, List.foldl_nil]
      unfold MemStorage.importStudentStep
      dsimp only
      rw [hm]
      have hfreshS : ∀ b ∈ s.students,
          (fun x : Student => x.id) b ≠ (fun x : Student => x.id)
            { id := s.currentStudentId, firstName := r.firstName,
              lastName := r.lastName, «section» := r.«section»,
              gender := r.gender, mobile := r.mobile,
              attendingStatus := r.attendingStatus,
              paidStatus := r.paidStatus,
              contributionAmount := r.contributionAmount } :=
        fun b hb => Nat.ne_of_lt (hboundS b hb)
      simp only [MemStorage.createStudent]
      rw [setByKey_of_forall_ne hfreshS]
      rfl
    · intro hmem
      obtain ⟨b, hb, hbid⟩ := List.mem_map.mp hmem
      exact Nat.ne_of_lt (hboundS b hb) hbid

/-- A novel-mobile record for the bulk-import witness. -/
def importRecordA : InsertStudent :=
  { firstName := "N", lastName := "M", «section» := "B", gender := "f",
    mobile := "111", attendingStatus := AttendingStatus.attending,
    paidStatus := PaidStatus.paid, contributionAmount := 9 }

/-- A second record with a mobile unknown to `sampleFresh`. -/
def importRecordB : InsertStudent :=
  { firstName := "P", lastName := "Q", «section» := "C", gender := "m",
    mobile := "999", attendingStatus := AttendingStatus.not_confirmed,
    paidStatus := PaidStatus.not_paid, contributionAmount := 0 }

/-- Claim C9 witness. -/
theorem C9_bulk_import_upsert_witness :
    WF sampleFresh ∧
    (MemStorage.bulkImportStudents sampleFresh
      [importRecordA, importRecordB]).2.length = 2 :=
  ⟨by decide,
   (C9_bulk_import_upsert sampleFresh (by decide)).2.2.2.2
     [importRecordA, importRecordB]⟩

/-- With pairwise-distinct keys, `Map.delete` removes at most one entry. -/
theorem length_eraseByKey_ge {key : α → Nat} {l : List α} {k : Nat}
    (hnd : (l.map key).Nodup) :
    l.length ≤ (eraseByKey key l k).length + 1 := by
  induction l with
  | nil => simp [eraseByKey]
  | cons a t ih =>
      rw [List.map_cons, List.nodup_cons] at hnd
      unfold eraseByKey at ih ⊢
      rw [List.filter_cons]
      by_cases h : key a = k
      · rw [if_neg (by simp [h])]
        have hkeep : t.filter (fun b => key b ≠ k) = t := by
          apply List.filter_eq_self.mpr
          intro b hb
          simp only [ne_eq, decide_not, Bool.not_eq_eq_eq_not, Bool.not_true,
            decide_eq_false_iff_not]
          intro hbk
          have hab : key a = key b := by rw [h, hbk]
          exact hnd.1 (by rw [hab]; exact List.mem_map_of_mem key hb)
        rw [hkeep]
        simp
      · rw [if_pos (by simp [h])]
        have := ih hnd.2
        simp only [List.length_cons]
        omega

/-- Claim C10: `deleteStudent` removes at most that one attendee and leaves
the contribution ledger untouched: every other attendee and every ledger row
survives, and the durable dashboard's ledger-derived `totalContributions` is
unchanged — in both backends. -/
theorem C10_delete_student_frame (s : StoreState) (id : Nat)
    (hnd : (s.students.map (·.id)).Nodup) :
    (MemStorage.deleteStudent s id).1.contributions = s.contributions ∧
    (DatabaseStorage.deleteStudent s id).1.contributions = s.contributions ∧
    (MemStorage.deleteStudent s id).1.students =
      s.students.filter (fun st => st.id ≠ id) ∧
    (DatabaseStorage.deleteStudent s id).1.students =
      s.students.filter (fun st => st.id ≠ id) ∧
    (∀ a ∈ s.students, a.id ≠ id →
      a ∈ (MemStorage.deleteStudent s id).1.students) ∧
    s.students.length ≤ (MemStorage.deleteStudent s id).1.students.length + 1 ∧
    (DatabaseStorage.getDashboardSummary
        (MemStorage.deleteStudent s id).1).totalContributions =
      (DatabaseStorage.getDashboardSummary s).totalContributions ∧
    (DatabaseStorage.getDashboardSummary
        (DatabaseStorage.deleteStudent s id).1).totalContributions =
      (DatabaseStorage.getDashboardSummary s).totalContributions := by
  refine ⟨rfl, rfl, rfl, rfl, ?_, ?_, rfl, rfl⟩
  · intro a ha hne
    show a ∈ eraseByKey (fun x : Student => x.id) s.students id
    unfold eraseByKey
    exact List.mem_filter.mpr ⟨ha, by simpa using hne⟩
  · show s.students.length ≤
      (eraseByKey (fun x : Student => x.id) s.students id).length + 1
    exact length_eraseByKey_ge hnd

/-- Claim C10 witness. -/
theorem C10_delete_student_frame_witness :
    (sampleLedger.students.map (·.id)).Nodup ∧
    (MemStorage.deleteStudent sampleLedger 2).1.contributions =
      sampleLedger.contributions :=
  ⟨by decide, (C10_delete_student_frame sampleLedger 2 (by decide)).1⟩

end Reunion
